import Mathlib

/-!
Verification of the ClassPulse call-session core.

This file gives a shallow embedding of the call-session store
(`src/utils/call-session-store.ts`), the Twilio integration status mapping and
call-start logic (`src/utils/twilio-integration.ts`), the viewer-token service
(`src/utils/viewer-token.ts`), and the Twilio/Realtime bridge barge-in logic
(`src/utils/twilio-realtime-bridge.ts`), together with proofs of the spec's
testable properties.

Modelling conventions:
* Wall-clock timestamps (`nowIso()` / `Date.now()`) are threaded explicitly as
  `Nat` parameters.
* JavaScript `Map` objects are modelled as association lists with
  insertion-order semantics (`assocSet` replaces in place or appends).
* Socket I/O (subscriber broadcast, `setTimeout` drain) has no effect on the
  session state and is not modelled.
* Each `CallSession` additionally carries a specification-only history field
  `appendedLog`: the list of every event ever appended, without the retention
  trim applied to `logEvents`.  `appendLogEvent` is the only function that
  extends it.  It exists purely so that ordering/eviction claims can quantify
  over "all events ever appended".
* The retention cap `MAX_LOG_EVENTS = 5000` is passed as an explicit `cap`
  argument so theorems can quantify over the cap; the production value is the
  constant below.
-/

namespace ClassPulse

/-- Association-list lookup keyed by strings (models `Map.get`). -/
def assocGet {α : Type} : List (String × α) → String → Option α
  | [], _ => none
  | (k, v) :: t, key => if k = key then some v else assocGet t key

/-- Association-list insert/replace (models `Map.set`: replace in place when the
key is present, append otherwise). -/
def assocSet {α : Type} : List (String × α) → String → α → List (String × α)
  | [], key, v => [(key, v)]
  | (k, w) :: t, key, v =>
      if k = key then (k, v) :: t else (k, w) :: assocSet t key v

/-- Association-list removal (models `Map.delete`). -/
def assocRemove {α : Type} : List (String × α) → String → List (String × α)
  | [], _ => []
  | (k, v) :: t, key => if k = key then t else (k, v) :: assocRemove t key

inductive CallStatus where
  | ready
  | queued
  | ringing
  | inProgress
  | completed
  | failed
deriving DecidableEq, Repr

inductive TranscriptSpeaker where
  | recipient
  | assistant
deriving DecidableEq, Repr

/-- Log events, as in the `CallLogEvent` union type.  Audio levels are
JavaScript numbers; we model them as rationals. -/
inductive CallLogEvent where
  | status (seq : Nat) (status : CallStatus) (timestamp : Nat)
  | transcriptDelta (seq : Nat) (itemId : String) (speaker : TranscriptSpeaker)
      (textDelta : String) (timestamp : Nat) (order : Nat)
  | transcriptFinal (seq : Nat) (itemId : String) (speaker : TranscriptSpeaker)
      (fullText : String) (timestamp : Nat) (order : Nat)
  | audioLevel (seq : Nat) (speaker : TranscriptSpeaker) (level : ℚ) (timestamp : Nat)
  | sessionEnd (seq : Nat) (reason : String) (timestamp : Nat)
deriving DecidableEq, Repr

/-- The `seq` field common to every event variant. -/
def CallLogEvent.seqOf : CallLogEvent → Nat
  | .status s _ _ => s
  | .transcriptDelta s _ _ _ _ _ => s
  | .transcriptFinal s _ _ _ _ _ => s
  | .audioLevel s _ _ _ => s
  | .sessionEnd s _ _ => s

/-- The `timestamp` field common to every event variant. -/
def CallLogEvent.timestampOf : CallLogEvent → Nat
  | .status _ _ t => t
  | .transcriptDelta _ _ _ _ t _ => t
  | .transcriptFinal _ _ _ _ t _ => t
  | .audioLevel _ _ _ t => t
  | .sessionEnd _ _ t => t

/-- Whether the event is a `session.end` event. -/
def CallLogEvent.isSessionEnd : CallLogEvent → Bool
  | .sessionEnd _ _ _ => true
  | _ => false

structure TranscriptItem where
  itemId : String
  speaker : TranscriptSpeaker
  text : String
  isFinal : Bool
  seq : Nat
  timestamp : Nat
  order : Nat
deriving DecidableEq, Repr

structure CallSession where
  sessionId : String
  callSid : Option String
  status : CallStatus
  startedAt : Nat
  endedAt : Option Nat
  seq : Nat
  transcriptItems : List (String × TranscriptItem)
  transcriptOrder : List String
  logEvents : List CallLogEvent
  terminalReason : Option String
  /-- Ghost history: every event ever appended, never trimmed. -/
  appendedLog : List CallLogEvent
deriving DecidableEq, Repr

/-- Event inputs before a `seq`/`timestamp` is assigned (`CallLogEventInput`). -/
inductive CallLogEventInput where
  | status (status : CallStatus) (timestamp : Option Nat)
  | transcriptDelta (itemId : String) (speaker : TranscriptSpeaker)
      (textDelta : String) (order : Nat) (timestamp : Option Nat)
  | transcriptFinal (itemId : String) (speaker : TranscriptSpeaker)
      (fullText : String) (order : Nat) (timestamp : Option Nat)
  | audioLevel (speaker : TranscriptSpeaker) (level : ℚ) (timestamp : Option Nat)
  | sessionEnd (reason : String) (timestamp : Option Nat)
deriving DecidableEq, Repr

def MAX_LOG_EVENTS : Nat := 5000

/-- `TERMINAL_STATUSES.has(status)`. -/
def isTerminalStatus (s : CallStatus) : Bool :=
  s = CallStatus.completed || s = CallStatus.failed

/-- `nextSequence`: increments and returns the session counter. -/
def nextSequence (s : CallSession) : Nat × CallSession :=
  let s' := { s with seq := s.seq + 1 }
  (s'.seq, s')

/-- First index of `x` in `l` (`Array.indexOf`; the not-found value is
unreachable at every call site, see `ensureTranscriptOrder`). -/
def indexOfStr : List String → String → Nat
  | [], _ => 0
  | h :: t, x => if h = x then 0 else indexOfStr t x + 1

/-- `splice(i + 1, 0, x)`: insert `x` right after position `i`. -/
def insertAfterIdx (l : List String) (i : Nat) (x : String) : List String :=
  l.take (i + 1) ++ x :: l.drop (i + 1)

/-- `ensureTranscriptOrder`: insert `itemId` into the display order (after
`previousItemId` when that anchor is present, else at the end) unless already
present; return its index.  The `prev ≠ ""` conjunct models JavaScript
truthiness of the `previousItemId &&` guard. -/
def ensureTranscriptOrder (s : CallSession) (itemId : String)
    (previousItemId : Option String) : Nat × CallSession :=
  let ord := s.transcriptOrder
  let ord' :=
    if itemId ∈ ord then ord
    else
      match previousItemId with
      | some prev =>
          if prev ≠ "" ∧ prev ∈ ord then
            insertAfterIdx ord (indexOfStr ord prev) itemId
          else ord ++ [itemId]
      | none => ord ++ [itemId]
  (indexOfStr ord' itemId, { s with transcriptOrder := ord' })

/-- `appendLogEvent`: assign the next sequence number, materialise the event,
push it (trimming the log to the last `cap` events), and record it in the
ghost history.  Broadcast to subscribers is I/O and not modelled. -/
def appendLogEvent (cap : Nat) (s : CallSession) (ev : CallLogEventInput)
    (now : Nat) : CallLogEvent × CallSession :=
  let timestamp :=
    match ev with
    | .status _ t | .transcriptDelta _ _ _ _ t | .transcriptFinal _ _ _ _ t
    | .audioLevel _ _ t | .sessionEnd _ t => t.getD now
  let seqSession := nextSequence s
  let seq := seqSession.1
  let s1 := seqSession.2
  let nextEvent : CallLogEvent :=
    match ev with
    | .status st _ => .status seq st timestamp
    | .transcriptDelta itemId speaker textDelta order _ =>
        .transcriptDelta seq itemId speaker textDelta timestamp order
    | .transcriptFinal itemId speaker fullText order _ =>
        .transcriptFinal seq itemId speaker fullText timestamp order
    | .audioLevel speaker level _ => .audioLevel seq speaker level timestamp
    | .sessionEnd reason _ => .sessionEnd seq reason timestamp
  let logEvents := s1.logEvents ++ [nextEvent]
  let logEvents :=
    if logEvents.length > cap then logEvents.drop (logEvents.length - cap)
    else logEvents
  (nextEvent,
   { s1 with logEvents := logEvents, appendedLog := s1.appendedLog ++ [nextEvent] })

/-- Render `Call ${status}` (the default terminal reason). -/
def statusText : CallStatus → String
  | .ready => "ready"
  | .queued => "queued"
  | .ringing => "ringing"
  | .inProgress => "in-progress"
  | .completed => "completed"
  | .failed => "failed"

/-- `markTerminal`: record `endedAt`/`terminalReason` and append the single
`session.end` event; a no-op when the session already ended.  The delayed
subscriber close is I/O and not modelled. -/
def markTerminal (cap : Nat) (s : CallSession) (reason : String) (now : Nat) :
    CallSession :=
  if s.endedAt.isSome then s
  else
    let s1 := { s with endedAt := some now, terminalReason := some reason }
    (appendLogEvent cap s1 (.sessionEnd reason none) now).2

/-- `upsertTranscriptItem`: return the existing item unchanged, or create a
fresh one (empty text, not final, seq 0) at its display-order slot. -/
def upsertTranscriptItem (s : CallSession) (itemId : String)
    (speaker : TranscriptSpeaker) (previousItemId : Option String) (now : Nat) :
    TranscriptItem × CallSession :=
  match assocGet s.transcriptItems itemId with
  | some existing => (existing, s)
  | none =>
      let orderSession := ensureTranscriptOrder s itemId previousItemId
      let created : TranscriptItem :=
        { itemId := itemId, speaker := speaker, text := "", isFinal := false,
          seq := 0, timestamp := now, order := orderSession.1 }
      (created,
       { orderSession.2 with
           transcriptItems := assocSet orderSession.2.transcriptItems itemId created })

/-- The process-wide store: `callSessions` and the `callSidToSessionId`
reverse index. -/
structure CallStore where
  sessions : List (String × CallSession)
  sidIndex : List (String × String)
deriving DecidableEq, Repr

def emptyStore : CallStore := { sessions := [], sidIndex := [] }

/-- `createCallSession` (with the random id supplied explicitly): install a
fresh `queued` session and append the initial status event. -/
def createCallSession (cap : Nat) (st : CallStore) (sessionId : String)
    (now : Nat) : CallStore :=
  let session : CallSession :=
    { sessionId := sessionId, callSid := none, status := .queued,
      startedAt := now, endedAt := none, seq := 0, transcriptItems := [],
      transcriptOrder := [], logEvents := [], terminalReason := none,
      appendedLog := [] }
  let session := (appendLogEvent cap session (.status .queued none) now).2
  { st with sessions := assocSet st.sessions sessionId session }

/-- `setCallSid`: store the call sid on the session and maintain the reverse
index, evicting a previous mapping owned by this session. -/
def setCallSid (st : CallStore) (sessionId callSid : String) : CallStore :=
  match assocGet st.sessions sessionId with
  | none => st
  | some session =>
      let sidIndex :=
        match session.callSid with
        | some prev =>
            if prev ≠ "" ∧ assocGet st.sidIndex prev = some sessionId then
              assocRemove st.sidIndex prev
            else st.sidIndex
        | none => st.sidIndex
      let session := { session with callSid := some callSid }
      { sessions := assocSet st.sessions sessionId session,
        sidIndex := assocSet sidIndex callSid sessionId }

/-- JavaScript truthiness of an optional string (`undefined` and `""` are
falsy). -/
def optTruthy : Option String → Bool
  | none => false
  | some s => s ≠ ""

/-- `updateCallStatus`: ignored for unknown or already-terminal sessions;
appends a `status` event when the status changed or a reason was supplied;
marks the session terminal on `completed`/`failed`. -/
def updateCallStatus (cap : Nat) (st : CallStore) (sessionId : String)
    (status : CallStatus) (reason : Option String) (now : Nat) : CallStore :=
  match assocGet st.sessions sessionId with
  | none => st
  | some session =>
      if session.endedAt.isSome then st
      else
        let changed := session.status ≠ status
        let session := { session with status := status }
        let session :=
          if changed ∨ optTruthy reason then
            (appendLogEvent cap session (.status status none) now).2
          else session
        let session :=
          if isTerminalStatus status then
            markTerminal cap session (reason.getD ("Call " ++ statusText status)) now
          else session
        { st with sessions := assocSet st.sessions sessionId session }

/-- `recordTranscriptOrder`: anchor `itemId` in the display order and refresh
the existing item's `order` field when the item already exists. -/
def recordTranscriptOrder (st : CallStore) (sessionId itemId : String)
    (previousItemId : Option String) : CallStore :=
  match assocGet st.sessions sessionId with
  | none => st
  | some session =>
      let existing := assocGet session.transcriptItems itemId
      let orderSession := ensureTranscriptOrder session itemId previousItemId
      let session :=
        match existing with
        | some item =>
            { orderSession.2 with
                transcriptItems :=
                  assocSet orderSession.2.transcriptItems itemId
                    { item with order := orderSession.1 } }
        | none => orderSession.2
      { st with sessions := assocSet st.sessions sessionId session }

structure TranscriptDeltaParams where
  sessionId : String
  itemId : String
  speaker : TranscriptSpeaker
  textDelta : String
  previousItemId : Option String
deriving DecidableEq, Repr

/-- `appendTranscriptDelta`: no-op on unknown session or empty delta; otherwise
upsert the item, concatenate the delta, clear `isFinal`, refresh the order, and
append a `transcript.delta` event whose seq/timestamp are copied back onto the
item. -/
def appendTranscriptDelta (cap : Nat) (st : CallStore)
    (params : TranscriptDeltaParams) (now : Nat) : CallStore :=
  match assocGet st.sessions params.sessionId with
  | none => st
  | some session =>
      if params.textDelta = "" then st
      else
        let itemSession :=
          upsertTranscriptItem session params.itemId params.speaker
            params.previousItemId now
        let item := itemSession.1
        let session := itemSession.2
        let item :=
          { item with text := item.text ++ params.textDelta, isFinal := false,
                      timestamp := now }
        let orderSession :=
          ensureTranscriptOrder session item.itemId params.previousItemId
        let item := { item with order := orderSession.1 }
        let session := orderSession.2
        let eventSession :=
          appendLogEvent cap session
            (.transcriptDelta item.itemId item.speaker params.textDelta
              item.order none) now
        let event := eventSession.1
        let session := eventSession.2
        let item :=
          { item with seq := event.seqOf, timestamp := event.timestampOf }
        let session :=
          { session with
              transcriptItems := assocSet session.transcriptItems item.itemId item }
        { st with sessions := assocSet st.sessions params.sessionId session }

structure TranscriptFinalParams where
  sessionId : String
  itemId : String
  speaker : TranscriptSpeaker
  fullText : String
  previousItemId : Option String
deriving DecidableEq, Repr

/-- `appendTranscriptFinal`: upsert the item, replace its text with `fullText`,
set `isFinal`, refresh the order, and append a `transcript.final` event whose
seq/timestamp are copied back onto the item. -/
def appendTranscriptFinal (cap : Nat) (st : CallStore)
    (params : TranscriptFinalParams) (now : Nat) : CallStore :=
  match assocGet st.sessions params.sessionId with
  | none => st
  | some session =>
      let itemSession :=
        upsertTranscriptItem session params.itemId params.speaker
          params.previousItemId now
      let item := itemSession.1
      let session := itemSession.2
      let item :=
        { item with text := params.fullText, isFinal := true, timestamp := now }
      let orderSession :=
        ensureTranscriptOrder session item.itemId params.previousItemId
      let item := { item with order := orderSession.1 }
      let session := orderSession.2
      let eventSession :=
        appendLogEvent cap session
          (.transcriptFinal item.itemId item.speaker params.fullText
            item.order none) now
      let event := eventSession.1
      let session := eventSession.2
      let item :=
        { item with seq := event.seqOf, timestamp := event.timestampOf }
      let session :=
        { session with
            transcriptItems := assocSet session.transcriptItems item.itemId item }
      { st with sessions := assocSet st.sessions params.sessionId session }

/-- `appendAudioLevel`: clamp the level to `[0, 1]` and append an
`audio.level` event. -/
def appendAudioLevel (cap : Nat) (st : CallStore) (sessionId : String)
    (speaker : TranscriptSpeaker) (level : ℚ) (now : Nat) : CallStore :=
  match assocGet st.sessions sessionId with
  | none => st
  | some session =>
      let clamped := max 0 (min 1 level)
      let session :=
        (appendLogEvent cap session (.audioLevel speaker clamped none) now).2
      { st with sessions := assocSet st.sessions sessionId session }

/-- `listLogEventsSince`: the retained events with `seq > sinceSeq`, in log
order. -/
def listLogEventsSince (st : CallStore) (sessionId : String) (sinceSeq : Nat) :
    List CallLogEvent :=
  match assocGet st.sessions sessionId with
  | none => []
  | some session => session.logEvents.filter (fun e => sinceSeq < e.seqOf)

/-- One store mutation, with its wall-clock time where the source reads the
clock.  These are exactly the exported mutators of the session store. -/
inductive StoreOp where
  | createSession (sessionId : String) (now : Nat)
  | setSid (sessionId callSid : String)
  | updateStatus (sessionId : String) (status : CallStatus)
      (reason : Option String) (now : Nat)
  | recordOrder (sessionId itemId : String) (previousItemId : Option String)
  | transcriptDelta (params : TranscriptDeltaParams) (now : Nat)
  | transcriptFinal (params : TranscriptFinalParams) (now : Nat)
  | audioLevel (sessionId : String) (speaker : TranscriptSpeaker) (level : ℚ)
      (now : Nat)
deriving DecidableEq, Repr

def applyOp (cap : Nat) (st : CallStore) : StoreOp → CallStore
  | .createSession sessionId now => createCallSession cap st sessionId now
  | .setSid sessionId callSid => setCallSid st sessionId callSid
  | .updateStatus sessionId status reason now =>
      updateCallStatus cap st sessionId status reason now
  | .recordOrder sessionId itemId previousItemId =>
      recordTranscriptOrder st sessionId itemId previousItemId
  | .transcriptDelta params now => appendTranscriptDelta cap st params now
  | .transcriptFinal params now => appendTranscriptFinal cap st params now
  | .audioLevel sessionId speaker level now =>
      appendAudioLevel cap st sessionId speaker level now

def runOps (cap : Nat) : List StoreOp → CallStore → CallStore
  | [], st => st
  | op :: rest, st => runOps cap rest (applyOp cap st op)

/-- A store state produced by some sequence of store operations. -/
def ReachableStore (cap : Nat) (st : CallStore) : Prop :=
  ∃ ops : List StoreOp, st = runOps cap ops emptyStore

/-! ## Twilio integration (`src/utils/twilio-integration.ts`) -/

/-- `toLowerCase()` for the ASCII status strings the carrier sends. -/
def strToLower (s : String) : String := String.mk (s.data.map Char.toLower)

/-- `mapTwilioStatus`: lower-case and map the carrier status string into the
session status vocabulary. -/
def mapTwilioStatus (status : Option String) : CallStatus :=
  let normalized := strToLower (status.getD "")
  if normalized = "ringing" then .ringing
  else if normalized = "in-progress" ∨ normalized = "answered" then .inProgress
  else if normalized = "queued" ∨ normalized = "initiated" ∨
      normalized = "scheduled" then .queued
  else if normalized = "completed" then .completed
  else .failed

/-- The success branch of `startTwilioOutboundCall` after
`twilioClient.calls.create` resolves: record the returned call sid (when
truthy), update the session status to the mapped carrier status, and return
the status reported in the `CallStartResult` payload.  Configuration reading,
token minting and the HTTP call itself are I/O around this core. -/
def startTwilioOutboundCallSuccess (cap : Nat) (st : CallStore)
    (sessionId : String) (callSid : Option String) (twilioStatus : Option String)
    (now : Nat) : CallStore × CallStatus :=
  let st :=
    match callSid with
    | some sid => if sid ≠ "" then setCallSid st sessionId sid else st
    | none => st
  let status := mapTwilioStatus twilioStatus
  let st := updateCallStatus cap st sessionId status none now
  (st,
   if status = CallStatus.failed ∨ status = CallStatus.completed then
     CallStatus.queued
   else status)

/-- The transcript comparator of `getCallSessionSummary`:
order by `order`, ties broken by `seq`. -/
def transcriptLE (a b : TranscriptItem) : Bool :=
  if a.order ≠ b.order then a.order ≤ b.order else a.seq ≤ b.seq

/-- `getCallSessionSummary` output. -/
structure CallSessionSummary where
  sessionId : String
  callSid : Option String
  status : CallStatus
  startedAt : Nat
  endedAt : Option Nat
  terminalReason : Option String
  lastSeq : Nat
  transcript : List TranscriptItem
deriving DecidableEq, Repr

/-- `getCallSessionSummary`: a snapshot of the session with the transcript
items sorted by `(order, seq)`. -/
def getCallSessionSummary (st : CallStore) (sessionId : String) :
    Option CallSessionSummary :=
  match assocGet st.sessions sessionId with
  | none => none
  | some s =>
      some
        { sessionId := s.sessionId, callSid := s.callSid, status := s.status,
          startedAt := s.startedAt, endedAt := s.endedAt,
          terminalReason := s.terminalReason, lastSeq := s.seq,
          transcript := (s.transcriptItems.map Prod.snd).mergeSort transcriptLE }

/-- The summary cache (`summaryCache`), keyed by session id, holding the
`lastSeq` at computation time and the computed result. -/
structure SummaryEnv (Result : Type) where
  cache : List (String × (Nat × Result))
deriving DecidableEq, Repr

/-- `getTwilioCallSummaryOutput`: return the cached result while the cached
`lastSeq` still equals the session's current `seq`; otherwise recompute and
re-cache.  The actual result synthesis (transcript prompt, remote model call
with heuristic fallback) is I/O and abstracted as `compute`, applied to the
session snapshot and the wall-clock time (which stamps `generatedAt`). -/
def getTwilioCallSummaryOutput {Result : Type}
    (compute : CallSessionSummary → Nat → Result) (st : CallStore)
    (env : SummaryEnv Result) (sessionId : String) (now : Nat) :
    Option Result × SummaryEnv Result :=
  match getCallSessionSummary st sessionId with
  | none => (none, env)
  | some summary =>
      let hit :=
        match assocGet env.cache sessionId with
        | some cached => if cached.1 = summary.lastSeq then some cached.2 else none
        | none => none
      match hit with
      | some result => (some result, env)
      | none =>
          let result := compute summary now
          (some result,
           { cache := assocSet env.cache sessionId (summary.lastSeq, result) })

/-- Append one event to a session in the store (the common effect of every
event-producing mutator, used to state cache invalidation). -/
def storeAppendEvent (cap : Nat) (st : CallStore) (sessionId : String)
    (ev : CallLogEventInput) (now : Nat) : CallStore :=
  match assocGet st.sessions sessionId with
  | none => st
  | some s =>
      { st with
          sessions := assocSet st.sessions sessionId
            (appendLogEvent cap s ev now).2 }

/-! ## Twilio/Realtime media bridge (`src/utils/twilio-realtime-bridge.ts`) -/
def PCMU_MAX_ABS_SAMPLE : Nat := 32124

/-- `decodeMuLawSample`: canonical µ-law byte to linear sample. -/
def decodeMuLawSample (muLawByte : Nat) : ℤ :=
  let mu := 255 - muLawByte % 256
  let sign := mu &&& 0x80
  let exponent := (mu >>> 4) &&& 0x07
  let mantissa := mu &&& 0x0f
  let sample : ℤ := (((((mantissa <<< 3) + 0x84) <<< exponent) : Nat) : ℤ) - 0x84
  if sign ≠ 0 then -sample else sample

/-- `estimatePcmuLevel` on the µ-law byte frame decoded from the base64
payload (`Buffer.from(encodedAudio, "base64")`; an undecodable payload yields
an empty buffer, hence `none`): RMS of the decoded samples, normalised against
PCMU full scale, scaled by 3.4 for UI readability, clamped to `[0, 1]`. -/
noncomputable def estimatePcmuLevel (frame : List Nat) : Option ℝ :=
  if frame = [] then none
  else
    let sumSquares : ℝ :=
      (((frame.map (fun b => decodeMuLawSample b ^ 2)).sum : ℤ) : ℝ)
    let rms := Real.sqrt (sumSquares / frame.length)
    let normalized := min 1 (max 0 (rms / (PCMU_MAX_ABS_SAMPLE : ℝ)))
    some (min 1 (normalized * 3.4))

/-- The bridge-local playback-tracking state used by barge-in. -/
structure BridgeState where
  twilioStreamSid : Option String
  activeResponseId : Option String
  activeAssistantItemId : Option String
  activeAssistantContentIndex : Nat
  activeAssistantAudioMsSent : ℚ
  activeAssistantAudioStartedAtMs : Option Nat
  assistantOutputActive : Bool
deriving DecidableEq, Repr

/-- The control messages sent while interrupting assistant playback (the
per-message `event_id` bookkeeping for error recovery is not modelled). -/
inductive BridgeOutMsg where
  | twilioClear (streamSid : String)
  | responseCancel
  | itemTruncate (itemId : String) (contentIndex : Nat) (audioEndMs : ℤ)
deriving DecidableEq, Repr

/-- `clearAssistantPlaybackTracking`. -/
def clearAssistantPlaybackTracking (st : BridgeState) : BridgeState :=
  { st with
      activeAssistantItemId := none,
      activeAssistantContentIndex := 0,
      activeAssistantAudioMsSent := 0,
      activeAssistantAudioStartedAtMs := none,
      assistantOutputActive := false }

/-- `estimatePlayedAssistantAudioMs`: what the listener heard, at wall time
`now`: dispatched milliseconds capped by elapsed wall-clock milliseconds since
playback started. -/
def estimatePlayedAssistantAudioMs (st : BridgeState) (now : Nat) : ℚ :=
  match st.activeAssistantAudioStartedAtMs with
  | none => st.activeAssistantAudioMsSent
  | some startedAt =>
      let elapsedMs : ℚ := max 0 ((now : ℚ) - (startedAt : ℚ))
      min st.activeAssistantAudioMsSent elapsedMs

/-- `interruptAssistantPlayback`: on user speech start, clear queued carrier
audio, cancel the active response, truncate the active assistant item to the
estimated heard milliseconds, and reset the tracking state; a no-op when no
assistant output is active and no tracked audio was sent. -/
def interruptAssistantPlayback (st : BridgeState) (now : Nat) :
    BridgeState × List BridgeOutMsg :=
  let hasTrackedAssistantAudio :=
    st.assistantOutputActive && decide (0 < st.activeAssistantAudioMsSent)
  let canTruncateAssistantAudio :=
    st.assistantOutputActive && optTruthy st.activeAssistantItemId &&
      hasTrackedAssistantAudio
  if !st.assistantOutputActive && !hasTrackedAssistantAudio then (st, [])
  else
    let clearMsgs :=
      match st.twilioStreamSid with
      | some sid => if sid ≠ "" then [BridgeOutMsg.twilioClear sid] else []
      | none => []
    let cancelMsgs :=
      if st.assistantOutputActive &&
          (optTruthy st.activeResponseId || hasTrackedAssistantAudio) then
        [BridgeOutMsg.responseCancel]
      else []
    let truncateMsgs :=
      match st.activeAssistantItemId with
      | some itemId =>
          if itemId ≠ "" ∧ canTruncateAssistantAudio then
            [BridgeOutMsg.itemTruncate itemId st.activeAssistantContentIndex
              (max 0 (Rat.floor (estimatePlayedAssistantAudioMs st now)))]
          else []
      | none => []
    (clearAssistantPlaybackTracking { st with activeResponseId := none },
     clearMsgs ++ cancelMsgs ++ truncateMsgs)

/-! ## Association-list lemmas -/
theorem assocGet_set_self {α : Type} (l : List (String × α)) (k : String) (v : α) :
    assocGet (assocSet l k v) k = some v := by
  induction l with
  | nil => simp [assocSet, assocGet]
  | cons h t ih =>
      obtain ⟨k', w⟩ := h
      by_cases hk : k' = k <;> simp [assocSet, assocGet, hk, ih]

/-- Well-formedness of a session's event log relative to its ghost history:
the seq counter equals the number of events ever appended; the appended events
were stamped `1, 2, 3, …`; the retained log is the suffix of the last `cap`
appended events; and exactly one `session.end` has been appended iff the
session has ended. -/
def SessionWF (cap : Nat) (s : CallSession) : Prop :=
  s.seq = s.appendedLog.length ∧
  s.appendedLog.map CallLogEvent.seqOf = List.range' 1 s.appendedLog.length ∧
  s.logEvents = s.appendedLog.drop (s.appendedLog.length - cap) ∧
  s.appendedLog.countP CallLogEvent.isSessionEnd =
    (if s.endedAt.isSome then 1 else 0)

def StoreWF (cap : Nat) (st : CallStore) : Prop :=
  ∀ sessionId s, assocGet st.sessions sessionId = some s → SessionWF cap s

/-- Transcript maps are keyed by the item's own id (true of every map the
store ever builds; stated as a hypothesis on starting states below). -/
def ItemsKeyed (s : CallSession) : Prop :=
  ∀ k item, assocGet s.transcriptItems k = some item → item.itemId = k

/-- A concrete one-session store used by several witnesses: the state right
after `createCallSession` at time 0 with id `"call_a"`. -/
def sampleSession : CallSession :=
  { sessionId := "call_a", callSid := none, status := .queued, startedAt := 0,
    endedAt := none, seq := 1, transcriptItems := [], transcriptOrder := [],
    logEvents := [.status 1 .queued 0], terminalReason := none,
    appendedLog := [.status 1 .queued 0] }

def sampleStore : CallStore :=
  { sessions := [("call_a", sampleSession)], sidIndex := [] }

/-- Which store operations are covered by the persistence half of C2:
everything except a nonempty transcript delta addressed to the very item
(which resets `isFinal`, see the counterexample) and re-creating a session
under the same id (which wipes the transcript). -/
def preservesFinalFor : StoreOp → String → String → Prop
  | .createSession sid _, sessionId, _ => sid ≠ sessionId
  | .transcriptDelta params _, sessionId, itemId =>
      ¬(params.sessionId = sessionId ∧ params.itemId = itemId ∧
        params.textDelta ≠ "")
  | _, _, _ => True

/-- The store after finalising `"item_1"` with text `"hello"`. -/
def sampleFinalStore : CallStore :=
  appendTranscriptFinal MAX_LOG_EVENTS sampleStore
    ⟨"call_a", "item_1", .recipient, "hello", none⟩ 1

/-- A short operation sequence used by witnesses: create a session, then one
status transition. -/
def sampleOps : List StoreOp :=
  [.createSession "call_a" 0, .updateStatus "call_a" .ringing none 1]

/-- The session produced by `sampleOps` under the production cap. -/
def sampleRingingSession : CallSession :=
  { sessionId := "call_a", callSid := none, status := .ringing, startedAt := 0,
    endedAt := none, seq := 2, transcriptItems := [], transcriptOrder := [],
    logEvents := [.status 1 .queued 0, .status 2 .ringing 1],
    terminalReason := none,
    appendedLog := [.status 1 .queued 0, .status 2 .ringing 1] }

/-- The session produced by `sampleOps` under retention cap 1: only the last
of its two appended events is retained. -/
def sampleRetentionSession : CallSession :=
  { sessionId := "call_a", callSid := none, status := .ringing, startedAt := 0,
    endedAt := none, seq := 2, transcriptItems := [], transcriptOrder := [],
    logEvents := [.status 2 .ringing 1], terminalReason := none,
    appendedLog := [.status 1 .queued 0, .status 2 .ringing 1] }

/-- The terminal store used by the C1 counterexample and witness: a session
driven to `completed` (hence ended, with its single `session.end`). -/
def sampleTerminalStore : CallStore :=
  updateCallStatus MAX_LOG_EVENTS sampleStore "call_a" .completed none 2

/-- The terminal session stored in `sampleTerminalStore`. -/
def sampleTerminalSession : CallSession :=
  { sessionId := "call_a", callSid := none, status := .completed, startedAt := 0,
    endedAt := some 2, seq := 3, transcriptItems := [], transcriptOrder := [],
    logEvents := [.status 1 .queued 0, .status 2 .completed 2,
      .sessionEnd 3 "Call completed" 2],
    terminalReason := some "Call completed",
    appendedLog := [.status 1 .queued 0, .status 2 .completed 2,
      .sessionEnd 3 "Call completed" 2] }

/-- The summary view of `sampleSession`. -/
def sampleSummary : CallSessionSummary :=
  { sessionId := "call_a", callSid := none, status := .queued, startedAt := 0,
    endedAt := none, terminalReason := none, lastSeq := 1, transcript := [] }

/-- A concrete bridge state with active assistant playback: 160 ms dispatched,
playback started at wall time 1000. -/
def sampleBridgeState : BridgeState :=
  { twilioStreamSid := some "MZ1", activeResponseId := some "resp_1",
    activeAssistantItemId := some "item_1", activeAssistantContentIndex := 0,
    activeAssistantAudioMsSent := 160,
    activeAssistantAudioStartedAtMs := some 1000, assistantOutputActive := true }

/-- base64url alphabet character for a 6-bit value. -/
def b64Char (n : Nat) : Char :=
  if n < 26 then Char.ofNat (65 + n)
  else if n < 52 then Char.ofNat (97 + (n - 26))
  else if n < 62 then Char.ofNat (48 + (n - 52))
  else if n = 62 then Char.ofNat 45
  else Char.ofNat 95

/-- base64url value of an alphabet character. -/
def b64Val? (c : Char) : Option Nat :=
  let n := c.toNat
  if 65 ≤ n ∧ n ≤ 90 then some (n - 65)
  else if 97 ≤ n ∧ n ≤ 122 then some (n - 97 + 26)
  else if 48 ≤ n ∧ n ≤ 57 then some (n - 48 + 52)
  else if n = 45 then some 62
  else if n = 95 then some 63
  else none

/-- base64url encoding (no padding), as produced by
`Buffer.toString("base64url")`. -/
def b64encode : List Nat → List Char
  | [] => []
  | [b1] => [b64Char (b1 / 4), b64Char (b1 % 4 * 16)]
  | [b1, b2] =>
      [b64Char (b1 / 4), b64Char (b1 % 4 * 16 + b2 / 16), b64Char (b2 % 16 * 4)]
  | b1 :: b2 :: b3 :: t =>
      b64Char (b1 / 4) :: b64Char (b1 % 4 * 16 + b2 / 16) ::
        b64Char (b2 % 16 * 4 + b3 / 64) :: b64Char (b3 % 64) :: b64encode t

/-- base64url decoding of well-formed input (a lone trailing character or a
non-alphabet character is rejected). -/
def b64decode? : List Char → Option (List Nat)
  | [] => some []
  | [_] => none
  | [c0, c1] =>
      match b64Val? c0, b64Val? c1 with
      | some v0, some v1 => some [v0 * 4 + v1 / 16]
      | _, _ => none
  | [c0, c1, c2] =>
      match b64Val? c0, b64Val? c1, b64Val? c2 with
      | some v0, some v1, some v2 =>
          some [v0 * 4 + v1 / 16, v1 % 16 * 16 + v2 / 4]
      | _, _, _ => none
  | c0 :: c1 :: c2 :: c3 :: t =>
      match b64Val? c0, b64Val? c1, b64Val? c2, b64Val? c3, b64decode? t with
      | some v0, some v1, some v2, some v3, some rest =>
          some ((v0 * 4 + v1 / 16) :: (v1 % 16 * 16 + v2 / 4) ::
            (v2 % 4 * 64 + v3) :: rest)
      | _, _, _, _, _ => none

/-- UTF-8 bytes of an ASCII string (the hypothesis `c.toNat < 128` keeps the
identification with code points exact). -/
def strBytes (s : String) : List Nat := s.data.map Char.toNat

def bytesToStr (l : List Nat) : String := String.mk (l.map Char.ofNat)

/-- Decimal digit bytes of a natural number (as `JSON.stringify` renders an
integer-valued Number). -/
def decDigits (n : Nat) : List Nat :=
  if n = 0 then [48] else ((Nat.digits 10 n).reverse.map (fun d => d + 48))

/-- The bytes of `JSON.stringify({sessionId, exp})` for a session id needing
no escaping. -/
def jsonPayloadBytes (sessionId : String) (exp : Nat) : List Nat :=
  strBytes "\x7b\"sessionId\":\"" ++ strBytes sessionId ++
    strBytes "\",\"exp\":" ++ decDigits exp ++ [125]

def stripPre? : List Nat → List Nat → Option (List Nat)
  | [], l => some l
  | _ :: _, [] => none
  | p :: ps, x :: xs => if x = p then stripPre? ps xs else none

def isDigitByte (b : Nat) : Bool := 48 ≤ b && b ≤ 57

def natFromDigits (l : List Nat) : Nat :=
  l.foldl (fun acc d => acc * 10 + (d - 48)) 0

/-- Strict parser for exactly the payload shape the minter produces (models
`JSON.parse` restricted to that shape; any other input is a parse failure). -/
def parsePayload? (bs : List Nat) : Option (String × Nat) :=
  match stripPre? (strBytes "\x7b\"sessionId\":\"") bs with
  | none => none
  | some r1 =>
      let sidBytes := r1.takeWhile (fun b => b ≠ 34)
      let r2 := r1.dropWhile (fun b => b ≠ 34)
      match stripPre? (strBytes "\",\"exp\":") r2 with
      | none => none
      | some r3 =>
          let digits := r3.takeWhile isDigitByte
          let r4 := r3.dropWhile isDigitByte
          if digits = [] then none
          else if r4 = [125] then
            some (bytesToStr sidBytes, natFromDigits digits)
          else none

/-- The session-id restrictions under which `JSON.stringify` needs no
escaping and the byte-level model is exact: printable ASCII without `"`,
`\\`, or `}`. -/
abbrev SidSafe (sessionId : String) : Prop :=
  ∀ c ∈ sessionId.data, 32 ≤ c.toNat ∧ c.toNat < 128 ∧
    c.toNat ≠ 34 ∧ c.toNat ≠ 92 ∧ c.toNat ≠ 125

/-- `token.split(".")`. -/
def splitOnDot : List Char → List (List Char)
  | [] => [[]]
  | c :: t =>
      if c = '.' then [] :: splitOnDot t
      else
        match splitOnDot t with
        | h :: r => (c :: h) :: r
        | [] => [[c]]

def DEFAULT_TTL_SECONDS : Nat := 600

/-- `createViewerToken`: base64url payload `{sessionId, exp}` plus an HMAC
signature over the encoded payload, joined by a dot.  The HMAC-SHA256 with the
process secret is abstracted as `mac`. -/
def createViewerToken (mac : String → String) (sessionId : String)
    (ttlSeconds : Nat) (nowMs : Nat) : String :=
  let exp := nowMs / 1000 + ttlSeconds
  let encodedPayload := String.mk (b64encode (jsonPayloadBytes sessionId exp))
  let signature := mac encodedPayload
  encodedPayload ++ "." ++ signature

/-- `verifyViewerToken`: split at dots, recompute the signature over the first
segment and compare (the byte-level `timingSafeEqual` plus length check is
equality of the UTF-8 strings), then decode/parse the payload (any failure,
modelling the `try`/`catch`, yields false) and check the session id and
expiry. -/
def verifyViewerToken (mac : String → String) (sessionId : String)
    (token : String) (nowMs : Nat) : Bool :=
  match splitOnDot token.data with
  | encodedPayload :: providedSignature :: _ =>
      if encodedPayload = [] ∨ providedSignature = [] then false
      else if (mac (String.mk encodedPayload)).data ≠ providedSignature then
        false
      else
        match b64decode? encodedPayload with
        | none => false
        | some payloadBytes =>
            match parsePayload? payloadBytes with
            | none => false
            | some (sid, exp) =>
                decide (sid = sessionId) && decide (nowMs / 1000 < exp)
  | _ => false

theorem assocGet_set_ne {α : Type} (l : List (String × α)) (k k' : String) (v : α)
    (h : k ≠ k') : assocGet (assocSet l k v) k' = assocGet l k' := by
  induction l with
  | nil => simp [assocSet, assocGet, h]
  | cons hd t ih =>
      obtain ⟨k0, w⟩ := hd
      by_cases hk : k0 = k
      · subst hk
        simp [assocSet, assocGet, h]
      · simp [assocSet, assocGet, hk, ih]

/-! ## `appendLogEvent` characterisation -/

theorem appendLogEvent_snd (cap : Nat) (s : CallSession) (ev : CallLogEventInput)
    (now : Nat) :
    (appendLogEvent cap s ev now).2 =
      { s with
          seq := s.seq + 1,
          logEvents :=
            if (s.logEvents ++ [(appendLogEvent cap s ev now).1]).length > cap then
              (s.logEvents ++ [(appendLogEvent cap s ev now).1]).drop
                ((s.logEvents ++ [(appendLogEvent cap s ev now).1]).length - cap)
            else s.logEvents ++ [(appendLogEvent cap s ev now).1],
          appendedLog := s.appendedLog ++ [(appendLogEvent cap s ev now).1] } := by
  cases ev <;> rfl

theorem appendLogEvent_fst_seqOf (cap : Nat) (s : CallSession)
    (ev : CallLogEventInput) (now : Nat) :
    (appendLogEvent cap s ev now).1.seqOf = s.seq + 1 := by
  cases ev <;> rfl

theorem appendLogEvent_audio_fst (cap : Nat) (s : CallSession)
    (speaker : TranscriptSpeaker) (level : ℚ) (now : Nat) :
    (appendLogEvent cap s (.audioLevel speaker level none) now).1 =
      CallLogEvent.audioLevel (s.seq + 1) speaker level now := rfl

theorem appendLogEvent_sessionEnd_fst (cap : Nat) (s : CallSession)
    (reason : String) (ts : Option Nat) (now : Nat) :
    (appendLogEvent cap s (.sessionEnd reason ts) now).1 =
      CallLogEvent.sessionEnd (s.seq + 1) reason (ts.getD now) := rfl

theorem appendLogEvent_snd_seq (cap : Nat) (s : CallSession)
    (ev : CallLogEventInput) (now : Nat) :
    ((appendLogEvent cap s ev now).2).seq = s.seq + 1 := by
  rw [appendLogEvent_snd]

theorem appendLogEvent_snd_status (cap : Nat) (s : CallSession)
    (ev : CallLogEventInput) (now : Nat) :
    ((appendLogEvent cap s ev now).2).status = s.status := by
  rw [appendLogEvent_snd]

theorem appendLogEvent_snd_callSid (cap : Nat) (s : CallSession)
    (ev : CallLogEventInput) (now : Nat) :
    ((appendLogEvent cap s ev now).2).callSid = s.callSid := by
  rw [appendLogEvent_snd]

theorem appendLogEvent_snd_transcriptItems (cap : Nat) (s : CallSession)
    (ev : CallLogEventInput) (now : Nat) :
    ((appendLogEvent cap s ev now).2).transcriptItems = s.transcriptItems := by
  rw [appendLogEvent_snd]

theorem markTerminal_status (cap : Nat) (s : CallSession) (reason : String)
    (now : Nat) : (markTerminal cap s reason now).status = s.status := by
  unfold markTerminal
  split
  · rfl
  · rw [appendLogEvent_snd_status]

theorem markTerminal_callSid (cap : Nat) (s : CallSession) (reason : String)
    (now : Nat) : (markTerminal cap s reason now).callSid = s.callSid := by
  unfold markTerminal
  split
  · rfl
  · rw [appendLogEvent_snd_callSid]

theorem markTerminal_transcriptItems (cap : Nat) (s : CallSession)
    (reason : String) (now : Nat) :
    (markTerminal cap s reason now).transcriptItems = s.transcriptItems := by
  unfold markTerminal
  split
  · rfl
  · rw [appendLogEvent_snd_transcriptItems]

/-- `setCallSid` on a known session stores the sid on that session. -/
theorem setCallSid_get (st : CallStore) (sessionId sid : String) (s : CallSession)
    (hs : assocGet st.sessions sessionId = some s) :
    assocGet (setCallSid st sessionId sid).sessions sessionId =
      some { s with callSid := some sid } := by
  simp [setCallSid, hs, assocGet_set_self]

/-- `updateCallStatus` on a known, non-terminal session: the stored session
gets the new status, with call sid and transcript items untouched. -/
theorem updateCallStatus_spec (cap : Nat) (st : CallStore) (sessionId : String)
    (status : CallStatus) (reason : Option String) (now : Nat) (s : CallSession)
    (hs : assocGet st.sessions sessionId = some s) (hend : s.endedAt = none) :
    ∃ s', assocGet (updateCallStatus cap st sessionId status reason
        now).sessions sessionId = some s' ∧
      s'.status = status ∧ s'.callSid = s.callSid ∧
      s'.transcriptItems = s.transcriptItems := by
  unfold updateCallStatus
  rw [hs]
  simp only [hend, Option.isSome_none, Bool.false_eq_true, if_false]
  refine ⟨_, assocGet_set_self _ _ _, ?_, ?_, ?_⟩
  · split
    · rw [markTerminal_status]
      split
      · rw [appendLogEvent_snd_status]
      · rfl
    · split
      · rw [appendLogEvent_snd_status]
      · rfl
  · split
    · rw [markTerminal_callSid]
      split
      · rw [appendLogEvent_snd_callSid]
      · rfl
    · split
      · rw [appendLogEvent_snd_callSid]
      · rfl
  · split
    · rw [markTerminal_transcriptItems]
      split
      · rw [appendLogEvent_snd_transcriptItems]
      · rfl
    · split
      · rw [appendLogEvent_snd_transcriptItems]
      · rfl

/-! ## Store invariants -/

theorem assocGet_set_cases {α : Type} (l : List (String × α)) (k k' : String)
    (v w : α) (h : assocGet (assocSet l k v) k' = some w) :
    (k' = k ∧ w = v) ∨ assocGet l k' = some w := by
  by_cases hk : k' = k
  · subst hk
    rw [assocGet_set_self] at h
    exact Or.inl ⟨rfl, (Option.some_injective _ h).symm⟩
  · rw [assocGet_set_ne _ _ _ _ (fun he => hk he.symm)] at h
    exact Or.inr h

/-- Transport of well-formedness along sessions agreeing on the relevant
fields. -/
theorem sessionWF_of_eq (cap : Nat) {s s' : CallSession} (h : SessionWF cap s)
    (h1 : s'.seq = s.seq) (h2 : s'.appendedLog = s.appendedLog)
    (h3 : s'.logEvents = s.logEvents) (h4 : s'.endedAt = s.endedAt) :
    SessionWF cap s' := by
  obtain ⟨a, b, c, d⟩ := h
  exact ⟨by rw [h1, h2, a], by rw [h2, b], by rw [h3, h2, c], by rw [h2, h4, d]⟩

/-- The retention trim after pushing one more event onto the retained suffix
yields the retained suffix of the extended history. -/
theorem trim_append_drop (cap : Nat) (ap : List CallLogEvent) (e : CallLogEvent) :
    (if (ap.drop (ap.length - cap) ++ [e]).length > cap then
      (ap.drop (ap.length - cap) ++ [e]).drop
        ((ap.drop (ap.length - cap) ++ [e]).length - cap)
     else ap.drop (ap.length - cap) ++ [e]) =
    (ap ++ [e]).drop ((ap ++ [e]).length - cap) := by
  by_cases hcap : ap.length + 1 ≤ cap
  · have h1 : ap.length - cap = 0 := by omega
    have h2 : ¬ ((ap.drop (ap.length - cap) ++ [e]).length > cap) := by
      simp only [List.length_append, List.length_drop, List.length_singleton]
      omega
    have h3 : (ap ++ [e]).length - cap = 0 := by
      simp only [List.length_append, List.length_singleton]
      omega
    rw [if_neg h2, h1, h3]
    simp
  · have htrim : (ap.drop (ap.length - cap) ++ [e]).length > cap := by
      simp only [List.length_append, List.length_drop, List.length_singleton]
      omega
    have hone : (ap.drop (ap.length - cap) ++ [e]).length - cap = 1 := by
      simp only [List.length_append, List.length_drop, List.length_singleton]
      omega
    rw [if_pos htrim, hone, List.drop_append_eq_append_drop, List.drop_drop,
      List.drop_append_eq_append_drop]
    by_cases hzero : cap = 0
    · subst hzero
      simp [List.drop_eq_nil_of_le]
    · have e1 : ap.length - cap + 1 = (ap ++ [e]).length - cap := by
        simp only [List.length_append, List.length_singleton]
        omega
      have e2 : 1 - (ap.drop (ap.length - cap)).length = 0 := by
        simp only [List.length_drop]
        omega
      have e3 : (ap ++ [e]).length - cap - ap.length = 0 := by
        simp only [List.length_append, List.length_singleton]
        omega
      rw [e1, e2, e3]

/-- Appending a non-`session.end` event preserves session well-formedness. -/
theorem appendLogEvent_wf (cap : Nat) (s : CallSession) (ev : CallLogEventInput)
    (now : Nat) (h : SessionWF cap s)
    (hnotend : (appendLogEvent cap s ev now).1.isSessionEnd = false) :
    SessionWF cap ((appendLogEvent cap s ev now).2) := by
  obtain ⟨hseq, hmap, hlog, hcnt⟩ := h
  rw [appendLogEvent_snd]
  refine ⟨?_, ?_, ?_, ?_⟩
  · simp [hseq]
  · simp only [List.map_append, List.map_cons, List.map_nil, hmap,
      appendLogEvent_fst_seqOf, hseq, List.length_append, List.length_singleton]
    rw [List.range'_concat]
    simp [Nat.add_comm]
  · simp only [hlog]
    exact trim_append_drop cap s.appendedLog _
  · simp only [List.countP_append, List.countP_cons, List.countP_nil, hcnt,
      hnotend]
    simp

/-- `markTerminal` preserves session well-formedness (it appends the single
`session.end` exactly when flipping `endedAt`). -/
theorem markTerminal_wf (cap : Nat) (s : CallSession) (reason : String)
    (now : Nat) (h : SessionWF cap s) :
    SessionWF cap (markTerminal cap s reason now) := by
  unfold markTerminal
  split
  · exact h
  next hend =>
    obtain ⟨hseq, hmap, hlog, hcnt⟩ := h
    have hnone : s.endedAt = none := Option.not_isSome_iff_eq_none.mp hend
    have hcnt0 : s.appendedLog.countP CallLogEvent.isSessionEnd = 0 := by
      rw [hcnt, hnone]
      rfl
    rw [appendLogEvent_snd]
    refine ⟨by simp [hseq], ?_, ?_, ?_⟩
    · simp only [List.map_append, List.map_cons, List.map_nil,
        appendLogEvent_fst_seqOf, List.length_append, List.length_singleton]
      simp only [hmap, hseq]
      rw [List.range'_concat]
      simp [Nat.add_comm]
    · simp only [hlog]
      exact trim_append_drop cap s.appendedLog _
    · simp only [List.countP_append, List.countP_cons, List.countP_nil,
        appendLogEvent_sessionEnd_fst, CallLogEvent.isSessionEnd]
      simp [hcnt0]

theorem ensureTranscriptOrder_wf (cap : Nat) (s : CallSession) (itemId : String)
    (prev : Option String) (h : SessionWF cap s) :
    SessionWF cap (ensureTranscriptOrder s itemId prev).2 :=
  sessionWF_of_eq cap h rfl rfl rfl rfl

theorem upsertTranscriptItem_wf (cap : Nat) (s : CallSession) (itemId : String)
    (speaker : TranscriptSpeaker) (prev : Option String) (now : Nat)
    (h : SessionWF cap s) :
    SessionWF cap (upsertTranscriptItem s itemId speaker prev now).2 := by
  unfold upsertTranscriptItem
  cases hx : assocGet s.transcriptItems itemId
  · exact sessionWF_of_eq cap h rfl rfl rfl rfl
  · exact h

/-- The fresh session installed by `createCallSession` is well formed. -/
theorem createSession_session_wf (cap : Nat) (sessionId : String) (now : Nat) :
    SessionWF cap ((appendLogEvent cap
      { sessionId := sessionId, callSid := none, status := .queued,
        startedAt := now, endedAt := none, seq := 0, transcriptItems := [],
        transcriptOrder := [], logEvents := [], terminalReason := none,
        appendedLog := [] } (.status .queued none) now).2) := by
  apply appendLogEvent_wf
  · exact ⟨rfl, rfl, by simp, rfl⟩
  · rfl

/-- The session written back by `appendTranscriptDelta` is well formed. -/
theorem deltaResult_wf (cap : Nat) (sess : CallSession) (itemId : String)
    (speaker : TranscriptSpeaker) (textDelta : String) (prev : Option String)
    (now : Nat) (items : List (String × TranscriptItem))
    (h : SessionWF cap sess) :
    SessionWF cap
      { (appendLogEvent cap
          (ensureTranscriptOrder
            (upsertTranscriptItem sess itemId speaker prev now).2
            (upsertTranscriptItem sess itemId speaker prev now).1.itemId prev).2
          (.transcriptDelta
            (upsertTranscriptItem sess itemId speaker prev now).1.itemId
            (upsertTranscriptItem sess itemId speaker prev now).1.speaker
            textDelta
            (ensureTranscriptOrder
              (upsertTranscriptItem sess itemId speaker prev now).2
              (upsertTranscriptItem sess itemId speaker prev now).1.itemId
              prev).1
            none) now).2
        with transcriptItems := items } := by
  apply sessionWF_of_eq cap
    (appendLogEvent_wf cap
      (ensureTranscriptOrder
        (upsertTranscriptItem sess itemId speaker prev now).2
        (upsertTranscriptItem sess itemId speaker prev now).1.itemId prev).2
      (.transcriptDelta
        (upsertTranscriptItem sess itemId speaker prev now).1.itemId
        (upsertTranscriptItem sess itemId speaker prev now).1.speaker
        textDelta
        (ensureTranscriptOrder
          (upsertTranscriptItem sess itemId speaker prev now).2
          (upsertTranscriptItem sess itemId speaker prev now).1.itemId prev).1
        none)
      now
      (ensureTranscriptOrder_wf cap _ _ _
        (upsertTranscriptItem_wf cap sess itemId speaker prev now h))
      rfl)
    rfl rfl rfl rfl

/-- The session written back by `appendTranscriptFinal` is well formed. -/
theorem finalResult_wf (cap : Nat) (sess : CallSession) (itemId : String)
    (speaker : TranscriptSpeaker) (fullText : String) (prev : Option String)
    (now : Nat) (items : List (String × TranscriptItem))
    (h : SessionWF cap sess) :
    SessionWF cap
      { (appendLogEvent cap
          (ensureTranscriptOrder
            (upsertTranscriptItem sess itemId speaker prev now).2
            (upsertTranscriptItem sess itemId speaker prev now).1.itemId prev).2
          (.transcriptFinal
            (upsertTranscriptItem sess itemId speaker prev now).1.itemId
            (upsertTranscriptItem sess itemId speaker prev now).1.speaker
            fullText
            (ensureTranscriptOrder
              (upsertTranscriptItem sess itemId speaker prev now).2
              (upsertTranscriptItem sess itemId speaker prev now).1.itemId
              prev).1
            none) now).2
        with transcriptItems := items } := by
  apply sessionWF_of_eq cap
    (appendLogEvent_wf cap
      (ensureTranscriptOrder
        (upsertTranscriptItem sess itemId speaker prev now).2
        (upsertTranscriptItem sess itemId speaker prev now).1.itemId prev).2
      (.transcriptFinal
        (upsertTranscriptItem sess itemId speaker prev now).1.itemId
        (upsertTranscriptItem sess itemId speaker prev now).1.speaker
        fullText
        (ensureTranscriptOrder
          (upsertTranscriptItem sess itemId speaker prev now).2
          (upsertTranscriptItem sess itemId speaker prev now).1.itemId prev).1
        none)
      now
      (ensureTranscriptOrder_wf cap _ _ _
        (upsertTranscriptItem_wf cap sess itemId speaker prev now h))
      rfl)
    rfl rfl rfl rfl

/-- Every store operation preserves well-formedness of all sessions. -/
theorem applyOp_wf (cap : Nat) (st : CallStore) (op : StoreOp)
    (h : StoreWF cap st) : StoreWF cap (applyOp cap st op) := by
  cases op with
  | createSession sessionId now =>
      intro id s hget
      simp only [applyOp, createCallSession] at hget
      rcases assocGet_set_cases _ _ _ _ _ hget with ⟨-, rfl⟩ | hold
      · exact createSession_session_wf cap sessionId now
      · exact h id s hold
  | setSid sessionId callSid =>
      intro id s hget
      simp only [applyOp, setCallSid] at hget
      cases hs : assocGet st.sessions sessionId with
      | none =>
          rw [hs] at hget
          exact h id s hget
      | some sess =>
          rw [hs] at hget
          simp only at hget
          rcases assocGet_set_cases _ _ _ _ _ hget with ⟨-, rfl⟩ | hold
          · exact sessionWF_of_eq cap (h sessionId sess hs) rfl rfl rfl rfl
          · exact h id s hold
  | updateStatus sessionId status reason now =>
      intro id s hget
      simp only [applyOp, updateCallStatus] at hget
      cases hs : assocGet st.sessions sessionId with
      | none =>
          rw [hs] at hget
          exact h id s hget
      | some sess =>
          rw [hs] at hget
          simp only at hget
          by_cases hend : sess.endedAt.isSome
          · rw [if_pos hend] at hget
            exact h id s hget
          · rw [if_neg hend] at hget
            simp only at hget
            rcases assocGet_set_cases _ _ _ _ _ hget with ⟨-, rfl⟩ | hold
            · have h0 : SessionWF cap sess := h sessionId sess hs
              have h1 : SessionWF cap ({ sess with status := status }) :=
                sessionWF_of_eq cap h0 rfl rfl rfl rfl
              have h2 : SessionWF cap
                  (if sess.status ≠ status ∨ optTruthy reason then
                    (appendLogEvent cap { sess with status := status }
                      (.status status none) now).2
                  else { sess with status := status }) := by
                split
                · exact appendLogEvent_wf cap _ _ _ h1 rfl
                · exact h1
              split
              · exact markTerminal_wf cap _ _ _ h2
              · exact h2
            · exact h id s hold
  | recordOrder sessionId itemId previousItemId =>
      intro id s hget
      simp only [applyOp, recordTranscriptOrder] at hget
      cases hs : assocGet st.sessions sessionId with
      | none =>
          rw [hs] at hget
          exact h id s hget
      | some sess =>
          rw [hs] at hget
          simp only at hget
          rcases assocGet_set_cases _ _ _ _ _ hget with ⟨-, rfl⟩ | hold
          · have h0 : SessionWF cap sess := h sessionId sess hs
            have h1 : SessionWF cap (ensureTranscriptOrder sess itemId
                previousItemId).2 := ensureTranscriptOrder_wf cap _ _ _ h0
            cases hx : assocGet sess.transcriptItems itemId
            · simp only [hx]
              exact h1
            · simp only [hx]
              exact sessionWF_of_eq cap h1 rfl rfl rfl rfl
          · exact h id s hold
  | transcriptDelta params now =>
      intro id s hget
      simp only [applyOp, appendTranscriptDelta] at hget
      cases hs : assocGet st.sessions params.sessionId with
      | none =>
          rw [hs] at hget
          exact h id s hget
      | some sess =>
          rw [hs] at hget
          simp only at hget
          by_cases htext : params.textDelta = ""
          · rw [if_pos htext] at hget
            exact h id s hget
          · rw [if_neg htext] at hget
            simp only at hget
            rcases assocGet_set_cases _ _ _ _ _ hget with ⟨-, rfl⟩ | hold
            · exact deltaResult_wf cap sess params.itemId params.speaker
                params.textDelta params.previousItemId now _
                (h params.sessionId sess hs)
            · exact h id s hold
  | transcriptFinal params now =>
      intro id s hget
      simp only [applyOp, appendTranscriptFinal] at hget
      cases hs : assocGet st.sessions params.sessionId with
      | none =>
          rw [hs] at hget
          exact h id s hget
      | some sess =>
          rw [hs] at hget
          simp only at hget
          rcases assocGet_set_cases _ _ _ _ _ hget with ⟨-, rfl⟩ | hold
          · exact finalResult_wf cap sess params.itemId params.speaker
              params.fullText params.previousItemId now _
              (h params.sessionId sess hs)
          · exact h id s hold
  | audioLevel sessionId speaker level now =>
      intro id s hget
      simp only [applyOp, appendAudioLevel] at hget
      cases hs : assocGet st.sessions sessionId with
      | none =>
          rw [hs] at hget
          exact h id s hget
      | some sess =>
          rw [hs] at hget
          simp only at hget
          rcases assocGet_set_cases _ _ _ _ _ hget with ⟨-, rfl⟩ | hold
          · exact appendLogEvent_wf cap _ _ _ (h sessionId sess hs) rfl
          · exact h id s hold

theorem runOps_wf (cap : Nat) (ops : List StoreOp) (st : CallStore)
    (h : StoreWF cap st) : StoreWF cap (runOps cap ops st) := by
  induction ops generalizing st with
  | nil => exact h
  | cons op rest ih => exact ih _ (applyOp_wf cap st op h)

theorem emptyStore_wf (cap : Nat) : StoreWF cap emptyStore := by
  intro id s hget
  cases hget

theorem reachable_wf (cap : Nat) (st : CallStore) (h : ReachableStore cap st) :
    StoreWF cap st := by
  obtain ⟨ops, rfl⟩ := h
  exact runOps_wf cap ops emptyStore (emptyStore_wf cap)

/-- Helper: the no-op branches of `appendTranscriptDelta`. -/
theorem appendTranscriptDelta_noop_aux (cap : Nat) (st : CallStore)
    (params : TranscriptDeltaParams) (now : Nat)
    (h : params.textDelta = "" ∨ assocGet st.sessions params.sessionId = none) :
    appendTranscriptDelta cap st params now = st := by
  unfold appendTranscriptDelta
  rcases h with h | h
  · cases hs : assocGet st.sessions params.sessionId <;> simp [hs, h]
  · simp [h]

/-! ## Transcript-item lookup lemmas -/

theorem ensureTranscriptOrder_snd_items (s : CallSession) (itemId : String)
    (prev : Option String) :
    (ensureTranscriptOrder s itemId prev).2.transcriptItems =
      s.transcriptItems := rfl

theorem upsertTranscriptItem_fst_itemId (s : CallSession) (itemId : String)
    (speaker : TranscriptSpeaker) (prev : Option String) (now : Nat)
    (hkeys : ItemsKeyed s) :
    (upsertTranscriptItem s itemId speaker prev now).1.itemId = itemId := by
  unfold upsertTranscriptItem
  cases hx : assocGet s.transcriptItems itemId with
  | none => rfl
  | some existing => exact hkeys _ _ hx

theorem upsert_get_self (s : CallSession) (itemId : String)
    (speaker : TranscriptSpeaker) (prev : Option String) (now : Nat) :
    assocGet (upsertTranscriptItem s itemId speaker prev now).2.transcriptItems
      itemId = some (upsertTranscriptItem s itemId speaker prev now).1 := by
  unfold upsertTranscriptItem
  cases hx : assocGet s.transcriptItems itemId with
  | none => exact assocGet_set_self _ _ _
  | some existing => exact hx

theorem upsert_get_ne (s : CallSession) (itemId k : String)
    (speaker : TranscriptSpeaker) (prev : Option String) (now : Nat)
    (hk : k ≠ itemId) :
    assocGet (upsertTranscriptItem s itemId speaker prev now).2.transcriptItems
      k = assocGet s.transcriptItems k := by
  unfold upsertTranscriptItem
  cases hx : assocGet s.transcriptItems itemId with
  | none => exact assocGet_set_ne _ _ _ _ (fun he => hk he.symm)
  | some existing => rfl

theorem createCallSession_get_ne (cap : Nat) (st : CallStore) (sid : String)
    (now : Nat) (id : String) (h : id ≠ sid) :
    assocGet (createCallSession cap st sid now).sessions id =
      assocGet st.sessions id := by
  simp only [createCallSession]
  exact assocGet_set_ne _ _ _ _ (fun he => h he.symm)

theorem setCallSid_items (st : CallStore) (sid callSid : String) (id : String)
    (s : CallSession) (hs : assocGet st.sessions id = some s) :
    ∃ s', assocGet (setCallSid st sid callSid).sessions id = some s' ∧
      s'.transcriptItems = s.transcriptItems := by
  unfold setCallSid
  cases hx : assocGet st.sessions sid with
  | none => exact ⟨s, hs, rfl⟩
  | some sess =>
      by_cases hid : id = sid
      · subst hid
        have : sess = s := by
          rw [hx] at hs
          exact Option.some_injective _ hs
        subst this
        exact ⟨_, assocGet_set_self _ _ _, rfl⟩
      · exact ⟨s, by
          simpa using (assocGet_set_ne st.sessions sid id _
            (fun he => hid he.symm)).trans hs, rfl⟩

theorem updateCallStatus_items (cap : Nat) (st : CallStore) (sid : String)
    (status : CallStatus) (reason : Option String) (now : Nat) (id : String)
    (s : CallSession) (hs : assocGet st.sessions id = some s) :
    ∃ s', assocGet (updateCallStatus cap st sid status reason now).sessions id =
        some s' ∧ s'.transcriptItems = s.transcriptItems := by
  unfold updateCallStatus
  cases hx : assocGet st.sessions sid with
  | none => exact ⟨s, hs, rfl⟩
  | some sess =>
      by_cases hend : sess.endedAt.isSome
      · simp only [hend, if_true]
        exact ⟨s, hs, rfl⟩
      · simp only [hend, if_false]
        by_cases hid : id = sid
        · subst hid
          have : sess = s := by
            rw [hx] at hs
            exact Option.some_injective _ hs
          subst this
          refine ⟨_, assocGet_set_self _ _ _, ?_⟩
          split
          · rw [markTerminal_transcriptItems]
            split
            · rw [appendLogEvent_snd_transcriptItems]
            · rfl
          · split
            · rw [appendLogEvent_snd_transcriptItems]
            · rfl
        · exact ⟨s, by
            simpa using (assocGet_set_ne st.sessions sid id _
              (fun he => hid he.symm)).trans hs, rfl⟩

theorem recordTranscriptOrder_items (st : CallStore) (sid itemId : String)
    (prev : Option String) (id : String) (s : CallSession)
    (hs : assocGet st.sessions id = some s) :
    ∃ s', assocGet (recordTranscriptOrder st sid itemId prev).sessions id =
        some s' ∧
      ∀ k, assocGet s'.transcriptItems k = assocGet s.transcriptItems k ∨
        ∃ it o, assocGet s.transcriptItems k = some it ∧
          assocGet s'.transcriptItems k = some { it with order := o } := by
  unfold recordTranscriptOrder
  cases hx : assocGet st.sessions sid with
  | none => exact ⟨s, hs, fun k => Or.inl rfl⟩
  | some sess =>
      by_cases hid : id = sid
      · subst hid
        have hse : s = sess := by
          rw [hx] at hs
          exact (Option.some_injective _ hs).symm
        subst hse
        cases hex : assocGet s.transcriptItems itemId with
        | none =>
            refine ⟨_, assocGet_set_self _ _ _, fun k => Or.inl ?_⟩
            simp [hex, ensureTranscriptOrder_snd_items]
        | some item0 =>
            refine ⟨_, assocGet_set_self _ _ _, fun k => ?_⟩
            simp only [hex]
            by_cases hk : k = itemId
            · subst hk
              exact Or.inr ⟨item0, (ensureTranscriptOrder s k prev).1, hex,
                assocGet_set_self _ _ _⟩
            · exact Or.inl (assocGet_set_ne _ _ _ _ (fun he => hk he.symm))
      · exact ⟨s, by
          simpa using (assocGet_set_ne st.sessions sid id _
            (fun he => hid he.symm)).trans hs, fun k => Or.inl rfl⟩

theorem appendAudioLevel_items (cap : Nat) (st : CallStore) (sid : String)
    (speaker : TranscriptSpeaker) (level : ℚ) (now : Nat) (id : String)
    (s : CallSession) (hs : assocGet st.sessions id = some s) :
    ∃ s', assocGet (appendAudioLevel cap st sid speaker level now).sessions id =
        some s' ∧ s'.transcriptItems = s.transcriptItems := by
  unfold appendAudioLevel
  cases hx : assocGet st.sessions sid with
  | none => exact ⟨s, hs, rfl⟩
  | some sess =>
      by_cases hid : id = sid
      · subst hid
        have : sess = s := by
          rw [hx] at hs
          exact Option.some_injective _ hs
        subst this
        exact ⟨_, assocGet_set_self _ _ _, appendLogEvent_snd_transcriptItems _ _ _ _⟩
      · exact ⟨s, by
          simpa using (assocGet_set_ne st.sessions sid id _
            (fun he => hid he.symm)).trans hs, rfl⟩

theorem appendTranscriptDelta_get_other (cap : Nat) (st : CallStore)
    (params : TranscriptDeltaParams) (now : Nat) (id : String)
    (hid : id ≠ params.sessionId) :
    assocGet (appendTranscriptDelta cap st params now).sessions id =
      assocGet st.sessions id := by
  unfold appendTranscriptDelta
  cases hx : assocGet st.sessions params.sessionId with
  | none => rfl
  | some sess =>
      by_cases htext : params.textDelta = ""
      · simp [htext]
      · simp only [htext, if_false]
        exact assocGet_set_ne _ _ _ _ (fun he => hid he.symm)

theorem appendTranscriptFinal_get_other (cap : Nat) (st : CallStore)
    (params : TranscriptFinalParams) (now : Nat) (id : String)
    (hid : id ≠ params.sessionId) :
    assocGet (appendTranscriptFinal cap st params now).sessions id =
      assocGet st.sessions id := by
  unfold appendTranscriptFinal
  cases hx : assocGet st.sessions params.sessionId with
  | none => rfl
  | some sess => exact assocGet_set_ne _ _ _ _ (fun he => hid he.symm)

/-- The target-session effect of `appendTranscriptDelta`: the addressed item
gets the delta appended to its text and `isFinal := false`; other items are
untouched. -/
theorem appendTranscriptDelta_get (cap : Nat) (st : CallStore)
    (params : TranscriptDeltaParams) (now : Nat) (s : CallSession)
    (hs : assocGet st.sessions params.sessionId = some s)
    (hkeys : ItemsKeyed s) (htext : params.textDelta ≠ "") :
    ∃ s', assocGet (appendTranscriptDelta cap st params now).sessions
        params.sessionId = some s' ∧
      (∀ k, k ≠ params.itemId →
        assocGet s'.transcriptItems k = assocGet s.transcriptItems k) ∧
      ∃ item', assocGet s'.transcriptItems params.itemId = some item' ∧
        item'.isFinal = false ∧
        item'.text =
          (match assocGet s.transcriptItems params.itemId with
            | some it => it.text
            | none => "") ++ params.textDelta := by
  have hupsfst : (upsertTranscriptItem s params.itemId params.speaker
      params.previousItemId now).1.itemId = params.itemId :=
    upsertTranscriptItem_fst_itemId s params.itemId params.speaker
      params.previousItemId now hkeys
  have hupstext : (upsertTranscriptItem s params.itemId params.speaker
      params.previousItemId now).1.text =
      (match assocGet s.transcriptItems params.itemId with
        | some it => it.text
        | none => "") := by
    unfold upsertTranscriptItem
    cases hx : assocGet s.transcriptItems params.itemId <;> simp [hx]
  unfold appendTranscriptDelta
  rw [hs]
  simp only [htext, if_false]
  rw [hupsfst]
  refine ⟨_, assocGet_set_self _ _ _, ?_, ?_⟩
  · intro k hk
    rw [assocGet_set_ne _ _ _ _ (fun he => hk he.symm),
      appendLogEvent_snd_transcriptItems, ensureTranscriptOrder_snd_items,
      upsert_get_ne _ _ _ _ _ _ hk]
  · refine ⟨_, assocGet_set_self _ _ _, rfl, ?_⟩
    simp [hupstext]

/-- The target-session effect of `appendTranscriptFinal`: the addressed item's
text is replaced by `fullText` and `isFinal := true`; other items are
untouched. -/
theorem appendTranscriptFinal_get (cap : Nat) (st : CallStore)
    (params : TranscriptFinalParams) (now : Nat) (s : CallSession)
    (hs : assocGet st.sessions params.sessionId = some s)
    (hkeys : ItemsKeyed s) :
    ∃ s', assocGet (appendTranscriptFinal cap st params now).sessions
        params.sessionId = some s' ∧
      (∀ k, k ≠ params.itemId →
        assocGet s'.transcriptItems k = assocGet s.transcriptItems k) ∧
      ∃ item', assocGet s'.transcriptItems params.itemId = some item' ∧
        item'.isFinal = true ∧ item'.text = params.fullText := by
  have hupsfst : (upsertTranscriptItem s params.itemId params.speaker
      params.previousItemId now).1.itemId = params.itemId :=
    upsertTranscriptItem_fst_itemId s params.itemId params.speaker
      params.previousItemId now hkeys
  unfold appendTranscriptFinal
  rw [hs]
  simp only
  rw [hupsfst]
  refine ⟨_, assocGet_set_self _ _ _, ?_, ?_⟩
  · intro k hk
    rw [assocGet_set_ne _ _ _ _ (fun he => hk he.symm),
      appendLogEvent_snd_transcriptItems, ensureTranscriptOrder_snd_items,
      upsert_get_ne _ _ _ _ _ _ hk]
  · exact ⟨_, assocGet_set_self _ _ _, rfl, rfl⟩

/-! ## Claim theorems -/

/-- C10: `appendTranscriptDelta` with an empty `textDelta` or an unknown
session id is a complete no-op: the store (hence the session's seq counter,
event log, transcript items and transcript order) is returned unchanged and no
transcript item is created. -/
theorem appendTranscriptDelta_empty_or_unknown_noop (cap : Nat) (st : CallStore)
    (params : TranscriptDeltaParams) (now : Nat)
    (h : params.textDelta = "" ∨ assocGet st.sessions params.sessionId = none) :
    appendTranscriptDelta cap st params now = st :=
  appendTranscriptDelta_noop_aux cap st params now h

/-- Witness for C10 at a concrete input. -/
theorem appendTranscriptDelta_empty_or_unknown_noop_witness :
    appendTranscriptDelta MAX_LOG_EVENTS emptyStore
      ⟨"call_a", "item_1", .recipient, "", none⟩ 0 = emptyStore :=
  appendTranscriptDelta_empty_or_unknown_noop MAX_LOG_EVENTS emptyStore
    ⟨"call_a", "item_1", .recipient, "", none⟩ 0 (Or.inl rfl)

/-- C8: every `audio.level` event emitted by `appendAudioLevel` carries the
clamped level `max 0 (min 1 level) ∈ [0, 1]`; and `estimatePcmuLevel` returns
either `none` (empty frame) or a value in `[0, 1]` equal to
`min 1 (3.4 · min 1 (max 0 (rms / 32124)))` over the µ-law-decoded samples. -/
theorem appendAudioLevel_clamped_and_estimate_bounds (cap : Nat) (st : CallStore)
    (sessionId : String) (speaker : TranscriptSpeaker) (level : ℚ) (now : Nat)
    (s : CallSession) (hs : assocGet st.sessions sessionId = some s) :
    (∃ s', assocGet (appendAudioLevel cap st sessionId speaker level now).sessions
        sessionId = some s' ∧
      s'.appendedLog = s.appendedLog ++
        [CallLogEvent.audioLevel (s.seq + 1) speaker (max 0 (min 1 level)) now] ∧
      0 ≤ max 0 (min 1 level) ∧ max 0 (min 1 level) ≤ 1) ∧
    (∀ frame : List Nat,
      estimatePcmuLevel frame = none ∨
      ∃ l : ℝ, estimatePcmuLevel frame = some l ∧ 0 ≤ l ∧ l ≤ 1 ∧
        l = min 1 (3.4 * min 1 (max 0 (Real.sqrt
              ((((frame.map (fun b => decodeMuLawSample b ^ 2)).sum : ℤ) : ℝ) /
                frame.length) / 32124)))) := by
  constructor
  · refine ⟨(appendLogEvent cap s (.audioLevel speaker (max 0 (min 1 level)) none)
        now).2, ?_, ?_, le_max_left _ _, max_le zero_le_one (min_le_left _ _)⟩
    · simp [appendAudioLevel, hs, assocGet_set_self]
    · rw [appendLogEvent_snd]
      simp [appendLogEvent_audio_fst]
  · intro frame
    by_cases hf : frame = []
    · left
      simp [estimatePcmuLevel, hf]
    · right
      refine ⟨min 1 (min 1 (max 0 (Real.sqrt
          ((((frame.map (fun b => decodeMuLawSample b ^ 2)).sum : ℤ) : ℝ) /
            frame.length) / (PCMU_MAX_ABS_SAMPLE : ℝ))) * 3.4),
          ?_, ?_, min_le_left _ _, ?_⟩
      · simp [estimatePcmuLevel, hf]
      · exact le_min zero_le_one
          (mul_nonneg (le_min zero_le_one (le_max_left _ _)) (by norm_num))
      · rw [mul_comm]
        norm_num [PCMU_MAX_ABS_SAMPLE]

/-- Witness for C8 at a concrete input. -/
theorem appendAudioLevel_clamped_and_estimate_bounds_witness :
    assocGet sampleStore.sessions "call_a" = some sampleSession ∧
    (∃ s', assocGet (appendAudioLevel MAX_LOG_EVENTS sampleStore "call_a"
        .recipient 2 1).sessions "call_a" = some s' ∧
      s'.appendedLog = sampleSession.appendedLog ++
        [CallLogEvent.audioLevel (sampleSession.seq + 1) .recipient
          (max 0 (min 1 (2 : ℚ))) 1] ∧
      (0 : ℚ) ≤ max 0 (min 1 2) ∧ (max 0 (min 1 2) : ℚ) ≤ 1) :=
  ⟨by decide,
   (appendAudioLevel_clamped_and_estimate_bounds MAX_LOG_EVENTS sampleStore
     "call_a" .recipient 2 1 sampleSession (by decide)).1⟩

/-- C3 (amended): when the carrier create-call API succeeds,
`startTwilioOutboundCall` records the returned carrier call id, sets the
session status to the canonical mapping of the carrier's initial status
(ringing→ringing; in-progress/answered→in-progress;
queued/initiated/scheduled→queued; completed→completed; anything
else→failed) — but the `CallStartResult.status` field reports that mapped
status only when it is not terminal: a mapped `completed` or `failed` is
reported as `queued`. -/
theorem startTwilioOutboundCallSuccess_spec (cap : Nat) (st : CallStore)
    (sessionId sid : String) (twStatus : Option String) (now : Nat)
    (s : CallSession) (hs : assocGet st.sessions sessionId = some s)
    (hend : s.endedAt = none) (hsid : sid ≠ "") :
    (∃ s', assocGet (startTwilioOutboundCallSuccess cap st sessionId (some sid)
        twStatus now).1.sessions sessionId = some s' ∧
      s'.callSid = some sid ∧ s'.status = mapTwilioStatus twStatus) ∧
    (startTwilioOutboundCallSuccess cap st sessionId (some sid) twStatus now).2 =
      (if mapTwilioStatus twStatus = CallStatus.failed ∨
          mapTwilioStatus twStatus = CallStatus.completed then CallStatus.queued
        else mapTwilioStatus twStatus) ∧
    mapTwilioStatus (some "ringing") = .ringing ∧
    mapTwilioStatus (some "in-progress") = .inProgress ∧
    mapTwilioStatus (some "answered") = .inProgress ∧
    mapTwilioStatus (some "queued") = .queued ∧
    mapTwilioStatus (some "initiated") = .queued ∧
    mapTwilioStatus (some "scheduled") = .queued ∧
    mapTwilioStatus (some "completed") = .completed ∧
    (∀ x : String, strToLower x ∉
        (["ringing", "in-progress", "answered", "queued", "initiated",
          "scheduled", "completed"] : List String) →
      mapTwilioStatus (some x) = .failed) := by
  refine ⟨?_, ?_, by decide, by decide, by decide, by decide, by decide,
    by decide, by decide, ?_⟩
  · have hset : assocGet (setCallSid st sessionId sid).sessions sessionId =
        some { s with callSid := some sid } := setCallSid_get st sessionId sid s hs
    obtain ⟨s', hget, hstatus, hcallSid, -⟩ :=
      updateCallStatus_spec cap (setCallSid st sessionId sid) sessionId
        (mapTwilioStatus twStatus) none now { s with callSid := some sid } hset
        hend
    refine ⟨s', ?_, ?_, hstatus⟩
    · simpa [startTwilioOutboundCallSuccess, hsid] using hget
    · rw [hcallSid]
  · simp [startTwilioOutboundCallSuccess]
  · intro x hx
    simp only [List.mem_cons, List.not_mem_nil, or_false, not_or] at hx
    obtain ⟨h1, h2, h3, h4, h5, h6, h7⟩ := hx
    simp [mapTwilioStatus, h1, h2, h3, h4, h5, h6, h7]

/-- Counterexample to C3 as stated: for carrier initial status `"completed"`
the session status becomes `completed` but the returned `CallStartResult`
status is `queued`, not the mapped status. -/
theorem startTwilioOutboundCallSuccess_returns_queued_on_completed :
    mapTwilioStatus (some "completed") = CallStatus.completed ∧
    (startTwilioOutboundCallSuccess MAX_LOG_EVENTS sampleStore "call_a"
      (some "CA1") (some "completed") 1).2 = CallStatus.queued ∧
    (assocGet (startTwilioOutboundCallSuccess MAX_LOG_EVENTS sampleStore
        "call_a" (some "CA1") (some "completed") 1).1.sessions "call_a").map
      CallSession.status = some CallStatus.completed ∧
    CallStatus.queued ≠ CallStatus.completed := by
  refine ⟨by decide, by decide, by decide, by decide⟩

/-- Witness for the amended C3 at a concrete input. -/
theorem startTwilioOutboundCallSuccess_spec_witness :
    (assocGet sampleStore.sessions "call_a" = some sampleSession ∧
      sampleSession.endedAt = none ∧ "CA1" ≠ "") ∧
    (∃ s', assocGet (startTwilioOutboundCallSuccess MAX_LOG_EVENTS sampleStore
        "call_a" (some "CA1") (some "ringing") 1).1.sessions "call_a" =
          some s' ∧
      s'.callSid = some "CA1" ∧ s'.status = mapTwilioStatus (some "ringing")) :=
  ⟨⟨by decide, by decide, by decide⟩,
   (startTwilioOutboundCallSuccess_spec MAX_LOG_EVENTS sampleStore "call_a"
     "CA1" (some "ringing") 1 sampleSession (by decide) (by decide)
     (by decide)).1⟩

/-- C2 (amended): after `appendTranscriptFinal`, the addressed item holds
exactly `fullText` (replacing, not extending, the accumulated delta text) with
`isFinal = true`; `isFinal` then remains true under every later store
operation except a nonempty `appendTranscriptDelta` for the same item or a
session re-creation — and such a delta resets `isFinal` to false while
appending its delta to the replaced text. -/
theorem transcript_final_replaces_and_persists :
    (∀ cap st params now (s : CallSession),
      assocGet st.sessions params.sessionId = some s → ItemsKeyed s →
      ∃ s' item',
        assocGet (appendTranscriptFinal cap st params now).sessions
          params.sessionId = some s' ∧
        assocGet s'.transcriptItems params.itemId = some item' ∧
        item'.isFinal = true ∧ item'.text = params.fullText) ∧
    (∀ cap st op sessionId itemId (s : CallSession) item,
      assocGet st.sessions sessionId = some s → ItemsKeyed s →
      assocGet s.transcriptItems itemId = some item → item.isFinal = true →
      preservesFinalFor op sessionId itemId →
      ∃ s' item',
        assocGet (applyOp cap st op).sessions sessionId = some s' ∧
        assocGet s'.transcriptItems itemId = some item' ∧
        item'.isFinal = true) ∧
    (∀ cap st params now (s : CallSession) item,
      assocGet st.sessions params.sessionId = some s → ItemsKeyed s →
      params.textDelta ≠ "" →
      assocGet s.transcriptItems params.itemId = some item →
      ∃ s' item',
        assocGet (appendTranscriptDelta cap st params now).sessions
          params.sessionId = some s' ∧
        assocGet s'.transcriptItems params.itemId = some item' ∧
        item'.isFinal = false ∧ item'.text = item.text ++ params.textDelta) := by
  refine ⟨?_, ?_, ?_⟩
  · intro cap st params now s hs hkeys
    obtain ⟨s', hget, -, item', hgetI, hfin, htext⟩ :=
      appendTranscriptFinal_get cap st params now s hs hkeys
    exact ⟨s', item', hget, hgetI, hfin, htext⟩
  · intro cap st op sessionId itemId s item hs hkeys hitem hfin hpres
    cases op with
    | createSession sid now =>
        refine ⟨s, item, ?_, hitem, hfin⟩
        simp only [applyOp]
        rw [createCallSession_get_ne cap st sid now sessionId hpres.symm]
        exact hs
    | setSid sid callSid =>
        obtain ⟨s', hget, hitems⟩ := setCallSid_items st sid callSid sessionId s hs
        exact ⟨s', item, hget, by rw [hitems]; exact hitem, hfin⟩
    | updateStatus sid status reason now =>
        obtain ⟨s', hget, hitems⟩ :=
          updateCallStatus_items cap st sid status reason now sessionId s hs
        exact ⟨s', item, hget, by rw [hitems]; exact hitem, hfin⟩
    | recordOrder sid itemId0 prev =>
        obtain ⟨s', hget, hk⟩ :=
          recordTranscriptOrder_items st sid itemId0 prev sessionId s hs
        rcases hk itemId with heq | ⟨it, o, hit, hit'⟩
        · exact ⟨s', item, hget, by rw [heq]; exact hitem, hfin⟩
        · have : it = item := by
            rw [hit] at hitem
            exact Option.some_injective _ hitem
          subst this
          exact ⟨s', _, hget, hit', hfin⟩
    | transcriptDelta params now =>
        by_cases hsid : params.sessionId = sessionId
        · by_cases htext : params.textDelta = ""
          · refine ⟨s, item, ?_, hitem, hfin⟩
            simp only [applyOp]
            rw [appendTranscriptDelta_noop_aux cap st params now (Or.inl htext)]
            exact hs
          · have hitemne : params.itemId ≠ itemId := by
              intro he
              exact hpres ⟨hsid, he, htext⟩
            subst hsid
            obtain ⟨s', hget, hne, -⟩ :=
              appendTranscriptDelta_get cap st params now s hs hkeys htext
            refine ⟨s', item, hget, ?_, hfin⟩
            rw [hne itemId (fun he => hitemne he.symm)]
            exact hitem
        · refine ⟨s, item, ?_, hitem, hfin⟩
          simp only [applyOp]
          rw [appendTranscriptDelta_get_other cap st params now sessionId
            (fun he => hsid he.symm)]
          exact hs
    | transcriptFinal params now =>
        by_cases hsid : params.sessionId = sessionId
        · subst hsid
          obtain ⟨s', hget, hne, item'', hgetI, hfin', -⟩ :=
            appendTranscriptFinal_get cap st params now s hs hkeys
          by_cases hitemeq : itemId = params.itemId
          · subst hitemeq
            exact ⟨s', item'', hget, hgetI, hfin'⟩
          · refine ⟨s', item, hget, ?_, hfin⟩
            rw [hne itemId hitemeq]
            exact hitem
        · refine ⟨s, item, ?_, hitem, hfin⟩
          simp only [applyOp]
          rw [appendTranscriptFinal_get_other cap st params now sessionId
            (fun he => hsid he.symm)]
          exact hs
    | audioLevel sid speaker level now =>
        obtain ⟨s', hget, hitems⟩ :=
          appendAudioLevel_items cap st sid speaker level now sessionId s hs
        exact ⟨s', item, hget, by rw [hitems]; exact hitem, hfin⟩
  · intro cap st params now s item hs hkeys htext hitem
    obtain ⟨s', hget, -, item', hgetI, hfin, htext'⟩ :=
      appendTranscriptDelta_get cap st params now s hs hkeys htext
    refine ⟨s', item', hget, hgetI, hfin, ?_⟩
    rw [htext']
    simp [hitem]

/-- Counterexample to C2 as stated: a transcript delta arriving after the
final for the same `(speaker, itemId)` flips `isFinal` back to false (and
appends to the text), so `isFinal` does not remain true under later
operations. -/
theorem final_then_delta_flips_isFinal :
    ((assocGet sampleFinalStore.sessions "call_a").map
      (fun s => (assocGet s.transcriptItems "item_1").map
        (fun it => (it.isFinal, it.text)))) = some (some (true, "hello")) ∧
    ((assocGet (appendTranscriptDelta MAX_LOG_EVENTS sampleFinalStore
        ⟨"call_a", "item_1", .recipient, " more", none⟩ 2).sessions
        "call_a").map (fun s => (assocGet s.transcriptItems "item_1").map
        (fun it => (it.isFinal, it.text)))) = some (some (false, "hello more")) :=
  ⟨by decide, by decide⟩

/-- Witness for the amended C2 at a concrete input. -/
theorem transcript_final_replaces_witness :
    (assocGet sampleStore.sessions "call_a" = some sampleSession ∧
      ItemsKeyed sampleSession) ∧
    ∃ s' item',
      assocGet (appendTranscriptFinal MAX_LOG_EVENTS sampleStore
        ⟨"call_a", "item_1", .recipient, "hello", none⟩ 1).sessions "call_a" =
          some s' ∧
      assocGet s'.transcriptItems "item_1" = some item' ∧
      item'.isFinal = true ∧ item'.text = "hello" :=
  ⟨⟨by decide, fun k item h => by simp [sampleSession, assocGet] at h⟩,
   (transcript_final_replaces_and_persists).1 MAX_LOG_EVENTS sampleStore
     ⟨"call_a", "item_1", .recipient, "hello", none⟩ 1 sampleSession (by decide)
     (fun k item h => by simp [sampleSession, assocGet] at h)⟩

/-- C4: in every reachable store, the events appended to a session have
strictly increasing `seq` in append order (both over the full append history
and over the retained log); no event with a lower seq is ever appended after a
higher one. -/
theorem seq_strictly_increasing (st : CallStore)
    (h : ReachableStore MAX_LOG_EVENTS st) (sessionId : String) (s : CallSession)
    (hs : assocGet st.sessions sessionId = some s) :
    s.appendedLog.Pairwise (fun e1 e2 => e1.seqOf < e2.seqOf) ∧
    s.logEvents.Pairwise (fun e1 e2 => e1.seqOf < e2.seqOf) := by
  obtain ⟨-, hmap, hlog, -⟩ := reachable_wf _ _ h sessionId s hs
  have hpair : (s.appendedLog.map CallLogEvent.seqOf).Pairwise (· < ·) := by
    rw [hmap]
    exact List.pairwise_lt_range' 1 _
  have hap : s.appendedLog.Pairwise (fun e1 e2 => e1.seqOf < e2.seqOf) :=
    List.pairwise_map.mp hpair
  exact ⟨hap, hlog ▸ hap.sublist (List.drop_sublist _ _)⟩

/-- Witness for C4 at a concrete reachable store. -/
theorem seq_strictly_increasing_witness :
    (ReachableStore MAX_LOG_EVENTS (runOps MAX_LOG_EVENTS sampleOps emptyStore) ∧
      assocGet (runOps MAX_LOG_EVENTS sampleOps emptyStore).sessions "call_a" =
        some sampleRingingSession) ∧
    sampleRingingSession.appendedLog.Pairwise
      (fun e1 e2 => e1.seqOf < e2.seqOf) ∧
    sampleRingingSession.logEvents.Pairwise
      (fun e1 e2 => e1.seqOf < e2.seqOf) :=
  ⟨⟨⟨sampleOps, rfl⟩, by decide⟩,
   seq_strictly_increasing _ ⟨sampleOps, rfl⟩ "call_a" sampleRingingSession
     (by decide)⟩

/-- C7: in every reachable store (for any retention cap, the production value
being `MAX_LOG_EVENTS = 5000`), once a session has more appended events than
the cap, the retained log is exactly the last `cap` appended events (oldest
evicted first), `listLogEventsSince _ _ 0` returns exactly those events in
ascending `seq` order, and eviction never changes the `seq` assigned to any
appended event (event `i` carries seq `i + 1`). -/
theorem eventlog_retention (cap : Nat) (st : CallStore)
    (h : ReachableStore cap st) (sessionId : String) (s : CallSession)
    (hs : assocGet st.sessions sessionId = some s)
    (hover : cap < s.appendedLog.length) :
    s.logEvents = s.appendedLog.drop (s.appendedLog.length - cap) ∧
    s.logEvents.length = cap ∧
    listLogEventsSince st sessionId 0 = s.logEvents ∧
    s.logEvents.Pairwise (fun e1 e2 => e1.seqOf < e2.seqOf) ∧
    s.appendedLog.map CallLogEvent.seqOf =
      List.range' 1 s.appendedLog.length := by
  obtain ⟨-, hmap, hlog, -⟩ := reachable_wf _ _ h sessionId s hs
  have hpos : ∀ e ∈ s.logEvents, 0 < e.seqOf := by
    intro e he
    have hmem : e ∈ s.appendedLog := by
      rw [hlog] at he
      exact (List.drop_sublist _ _).mem he
    have : e.seqOf ∈ s.appendedLog.map CallLogEvent.seqOf :=
      List.mem_map_of_mem _ hmem
    rw [hmap] at this
    have := (List.mem_range'_1).mp this
    omega
  refine ⟨hlog, ?_, ?_, ?_, hmap⟩
  · rw [hlog, List.length_drop]
    omega
  · simp only [listLogEventsSince, hs]
    exact List.filter_eq_self.mpr (fun e he => by
      simpa using hpos e he)
  · have hpair : (s.appendedLog.map CallLogEvent.seqOf).Pairwise (· < ·) := by
      rw [hmap]
      exact List.pairwise_lt_range' 1 _
    exact hlog ▸ (List.pairwise_map.mp hpair).sublist (List.drop_sublist _ _)

/-- Witness for C7 at a concrete reachable store with cap 1 and two appended
events. -/
theorem eventlog_retention_witness :
    (ReachableStore 1 (runOps 1 sampleOps emptyStore) ∧
      assocGet (runOps 1 sampleOps emptyStore).sessions "call_a" =
        some sampleRetentionSession ∧
      1 < sampleRetentionSession.appendedLog.length) ∧
    (sampleRetentionSession.logEvents =
        sampleRetentionSession.appendedLog.drop
          (sampleRetentionSession.appendedLog.length - 1) ∧
      sampleRetentionSession.logEvents.length = 1 ∧
      listLogEventsSince (runOps 1 sampleOps emptyStore) "call_a" 0 =
        sampleRetentionSession.logEvents ∧
      sampleRetentionSession.logEvents.Pairwise
        (fun e1 e2 => e1.seqOf < e2.seqOf) ∧
      sampleRetentionSession.appendedLog.map CallLogEvent.seqOf =
        List.range' 1 sampleRetentionSession.appendedLog.length) :=
  ⟨⟨⟨sampleOps, rfl⟩, by decide, by decide⟩,
   eventlog_retention 1 (runOps 1 sampleOps emptyStore) ⟨sampleOps, rfl⟩
     "call_a" sampleRetentionSession (by decide) (by decide)⟩

/-- C1 (amended): once a session has ended (`endedAt` set at the terminal
transition), `updateCallStatus` is a complete no-op (no status event, no
further `session.end`, seq unchanged), and in every reachable store a session
has exactly one appended `session.end` iff it has ended.  However (see the
counterexample) `appendTranscriptDelta`, `appendTranscriptFinal` and
`appendAudioLevel` do not consult the terminal flag and still append events to
a terminal session. -/
theorem terminal_status_guard_and_single_end :
    (∀ cap st sessionId status reason now s,
      assocGet st.sessions sessionId = some s → s.endedAt.isSome →
      updateCallStatus cap st sessionId status reason now = st) ∧
    (∀ cap st, ReachableStore cap st → ∀ sessionId s,
      assocGet st.sessions sessionId = some s →
      s.appendedLog.countP CallLogEvent.isSessionEnd =
        (if s.endedAt.isSome then 1 else 0)) := by
  constructor
  · intro cap st sessionId status reason now s hs hend
    simp [updateCallStatus, hs, hend]
  · intro cap st h sessionId s hs
    exact (reachable_wf cap st h sessionId s hs).2.2.2

/-- Counterexample to C1 as stated: on a terminal session,
`appendTranscriptDelta` still appends an event — the seq counter advances from
3 to 4 and the retained log grows, instead of the call being ignored. -/
theorem terminal_append_not_ignored :
    (assocGet sampleTerminalStore.sessions "call_a").map
      (fun s => s.endedAt.isSome) = some true ∧
    (assocGet sampleTerminalStore.sessions "call_a").map CallSession.seq =
      some 3 ∧
    (assocGet (appendTranscriptDelta MAX_LOG_EVENTS sampleTerminalStore
        ⟨"call_a", "item_1", .recipient, "Hi", none⟩ 3).sessions "call_a").map
      CallSession.seq = some 4 ∧
    (assocGet sampleTerminalStore.sessions "call_a").map
      (fun s => s.logEvents.length) = some 3 ∧
    (assocGet (appendTranscriptDelta MAX_LOG_EVENTS sampleTerminalStore
        ⟨"call_a", "item_1", .recipient, "Hi", none⟩ 3).sessions "call_a").map
      (fun s => s.logEvents.length) = some 4 := by
  refine ⟨by decide, by decide, by decide, by decide, by decide⟩

/-- Witness for the amended C1 at a concrete terminal store. -/
theorem terminal_status_guard_witness :
    (assocGet sampleTerminalStore.sessions "call_a" =
        some sampleTerminalSession ∧
      sampleTerminalSession.endedAt.isSome) ∧
    updateCallStatus MAX_LOG_EVENTS sampleTerminalStore "call_a" .failed
      (some "late failure") 9 = sampleTerminalStore ∧
    sampleTerminalSession.appendedLog.countP CallLogEvent.isSessionEnd =
      (if sampleTerminalSession.endedAt.isSome then 1 else 0) :=
  ⟨⟨by decide, by decide⟩,
   (terminal_status_guard_and_single_end).1 MAX_LOG_EVENTS sampleTerminalStore
     "call_a" .failed (some "late failure") 9 sampleTerminalSession (by decide)
     (by decide),
   (terminal_status_guard_and_single_end).2 MAX_LOG_EVENTS sampleTerminalStore
     ⟨[.createSession "call_a" 0, .updateStatus "call_a" .completed none 2],
       by decide⟩ "call_a" sampleTerminalSession (by decide)⟩

/-- C6: with no intervening event, a second `getTwilioCallSummaryOutput` call
returns the identical cached result (the very result object, `generatedAt`
included) and leaves the cache untouched, because the cached `lastSeq` equals
the session's current `seq`; appending any single event advances `seq`, so the
next call recomputes (returns the freshly computed result) and re-caches
instead of returning the cached result. -/
theorem summary_cache_behaviour {Result : Type}
    (compute : CallSessionSummary → Nat → Result) (st : CallStore)
    (env : SummaryEnv Result) (sessionId : String) (now₁ now₂ : Nat)
    (summary : CallSessionSummary)
    (hsum : getCallSessionSummary st sessionId = some summary) :
    (∃ res,
      (getTwilioCallSummaryOutput compute st env sessionId now₁).1 = some res ∧
      assocGet (getTwilioCallSummaryOutput compute st env sessionId
        now₁).2.cache sessionId = some (summary.lastSeq, res)) ∧
    getTwilioCallSummaryOutput compute st
      (getTwilioCallSummaryOutput compute st env sessionId now₁).2 sessionId
      now₂ = getTwilioCallSummaryOutput compute st env sessionId now₁ ∧
    (∀ cap ev now₃ now₄ (s : CallSession),
      assocGet st.sessions sessionId = some s →
      ∃ summary',
        getCallSessionSummary (storeAppendEvent cap st sessionId ev now₃)
          sessionId = some summary' ∧
        summary'.lastSeq = s.seq + 1 ∧
        getTwilioCallSummaryOutput compute
          (storeAppendEvent cap st sessionId ev now₃)
          (getTwilioCallSummaryOutput compute st env sessionId now₁).2
          sessionId now₄ =
          (some (compute summary' now₄),
           ⟨assocSet (getTwilioCallSummaryOutput compute st env sessionId
               now₁).2.cache sessionId
             (summary'.lastSeq, compute summary' now₄)⟩)) := by
  have hb : ∃ res,
      (getTwilioCallSummaryOutput compute st env sessionId now₁).1 = some res ∧
      assocGet (getTwilioCallSummaryOutput compute st env sessionId
        now₁).2.cache sessionId = some (summary.lastSeq, res) := by
    unfold getTwilioCallSummaryOutput
    rw [hsum]
    cases hc : assocGet env.cache sessionId with
    | none =>
        simp only [hc]
        exact ⟨_, rfl, assocGet_set_self _ _ _⟩
    | some cached =>
        by_cases hhit : cached.1 = summary.lastSeq
        · simp only [hc, hhit, if_true]
          refine ⟨cached.2, rfl, ?_⟩
          rw [← hhit]
        · simp only [hc, hhit, if_false]
          exact ⟨_, rfl, assocGet_set_self _ _ _⟩
  obtain ⟨res, hres, hcache⟩ := hb
  have hhitlemma : ∀ (env' : SummaryEnv Result) now,
      assocGet env'.cache sessionId = some (summary.lastSeq, res) →
      getTwilioCallSummaryOutput compute st env' sessionId now =
        (some res, env') := by
    intro env' now hc
    unfold getTwilioCallSummaryOutput
    rw [hsum, hc]
    simp
  set E := getTwilioCallSummaryOutput compute st env sessionId now₁ with hE
  refine ⟨⟨res, hres, hcache⟩, ?_, ?_⟩
  · rw [hhitlemma E.2 now₂ hcache, ← hres]
  · intro cap ev now₃ now₄ s hs
    have hlast : summary.lastSeq = s.seq := by
      unfold getCallSessionSummary at hsum
      rw [hs] at hsum
      have h1 := Option.some_injective _ hsum
      rw [← h1]
    have hs' : assocGet (storeAppendEvent cap st sessionId ev
        now₃).sessions sessionId = some (appendLogEvent cap s ev now₃).2 := by
      unfold storeAppendEvent
      rw [hs]
      exact assocGet_set_self _ _ _
    have hsum' : getCallSessionSummary (storeAppendEvent cap st sessionId ev
        now₃) sessionId = some
        { sessionId := (appendLogEvent cap s ev now₃).2.sessionId,
          callSid := (appendLogEvent cap s ev now₃).2.callSid,
          status := (appendLogEvent cap s ev now₃).2.status,
          startedAt := (appendLogEvent cap s ev now₃).2.startedAt,
          endedAt := (appendLogEvent cap s ev now₃).2.endedAt,
          terminalReason := (appendLogEvent cap s ev now₃).2.terminalReason,
          lastSeq := (appendLogEvent cap s ev now₃).2.seq,
          transcript := ((appendLogEvent cap s ev
            now₃).2.transcriptItems.map Prod.snd).mergeSort transcriptLE } := by
      unfold getCallSessionSummary
      rw [hs']
    refine ⟨_, hsum', ?_, ?_⟩
    · exact appendLogEvent_snd_seq cap s ev now₃
    · unfold getTwilioCallSummaryOutput
      rw [hsum', hcache]
      have hne : ¬ (summary.lastSeq =
          (appendLogEvent cap s ev now₃).2.seq) := by
        rw [hlast, appendLogEvent_snd_seq]
        omega
      simp only [hne, if_false]

/-- Witness for C6 at a concrete input (`compute` returns the wall time, so a
recompute is observable). -/
theorem summary_cache_behaviour_witness :
    getCallSessionSummary sampleStore "call_a" = some sampleSummary ∧
    (∃ res : Nat,
      (getTwilioCallSummaryOutput (fun _ n => n) sampleStore ⟨[]⟩ "call_a"
        7).1 = some res ∧
      assocGet (getTwilioCallSummaryOutput (fun _ n => n) sampleStore ⟨[]⟩
        "call_a" 7).2.cache "call_a" = some (sampleSummary.lastSeq, res)) ∧
    getTwilioCallSummaryOutput (fun _ n => n) sampleStore
      (getTwilioCallSummaryOutput (fun _ n => n) sampleStore ⟨[]⟩ "call_a"
        7).2 "call_a" 8 =
      getTwilioCallSummaryOutput (fun _ n => n) sampleStore ⟨[]⟩ "call_a" 7 :=
  by
  have hsum0 : getCallSessionSummary sampleStore "call_a" = some sampleSummary := by
    simp [getCallSessionSummary, sampleStore, assocGet, sampleSession,
      sampleSummary]
  have h := summary_cache_behaviour (fun (_ : CallSessionSummary) (n : Nat) => n)
    sampleStore ⟨[]⟩ "call_a" 7 8 sampleSummary hsum0
  exact ⟨hsum0, h.1, h.2.1⟩

/-- Firing the interrupt when assistant output is inactive is a no-op. -/
theorem interrupt_of_inactive (st : BridgeState) (now : Nat)
    (h : st.assistantOutputActive = false) :
    interruptAssistantPlayback st now = (st, []) := by
  simp [interruptAssistantPlayback, h]

/-- C9: two back-to-back speech-started interrupts produce at most one set of
control messages: the second invocation returns no messages and leaves the
state unchanged; a fired interrupt clears the playback tracking
(`assistantOutputActive` false, dispatched-audio counter 0); and every
`conversation.item.truncate` message carries `audio_end_ms ≥ 0` equal to
`⌊min(dispatched ms, wall-clock ms since playback start)⌋`. -/
theorem interruptAssistantPlayback_dedup (st : BridgeState) (now₁ now₂ : Nat) :
    interruptAssistantPlayback (interruptAssistantPlayback st now₁).1 now₂ =
      ((interruptAssistantPlayback st now₁).1, []) ∧
    ((interruptAssistantPlayback st now₁).2 ≠ [] →
      (interruptAssistantPlayback st now₁).1.assistantOutputActive = false ∧
      (interruptAssistantPlayback st now₁).1.activeAssistantAudioMsSent = 0) ∧
    (∀ itemId ci ms, BridgeOutMsg.itemTruncate itemId ci ms ∈
        (interruptAssistantPlayback st now₁).2 →
      0 ≤ ms ∧
      ∀ t0 : Nat, st.activeAssistantAudioStartedAtMs = some t0 →
        ms = Rat.floor (min st.activeAssistantAudioMsSent
          (max 0 ((now₁ : ℚ) - (t0 : ℚ))))) := by
  by_cases hA : st.assistantOutputActive
  · have hfired :
        (interruptAssistantPlayback st now₁).1 =
          clearAssistantPlaybackTracking { st with activeResponseId := none } := by
      simp [interruptAssistantPlayback, hA]
    refine ⟨?_, ?_, ?_⟩
    · rw [hfired]
      exact interrupt_of_inactive _ _ rfl
    · intro _
      rw [hfired]
      exact ⟨rfl, rfl⟩
    · intro itemId ci ms hmem
      have hmem' : BridgeOutMsg.itemTruncate itemId ci ms ∈
          (interruptAssistantPlayback st now₁).2 := hmem
      rw [show (interruptAssistantPlayback st now₁).2 =
          (let hasTracked := st.assistantOutputActive &&
            decide (0 < st.activeAssistantAudioMsSent)
          let canTruncate := st.assistantOutputActive &&
            optTruthy st.activeAssistantItemId && hasTracked
          (match st.twilioStreamSid with
            | some sid => if sid ≠ "" then [BridgeOutMsg.twilioClear sid] else []
            | none => []) ++
          (if st.assistantOutputActive &&
              (optTruthy st.activeResponseId || hasTracked) then
            [BridgeOutMsg.responseCancel] else []) ++
          (match st.activeAssistantItemId with
            | some itemId0 =>
                if itemId0 ≠ "" ∧ canTruncate then
                  [BridgeOutMsg.itemTruncate itemId0 st.activeAssistantContentIndex
                    (max 0 (Rat.floor (estimatePlayedAssistantAudioMs st now₁)))]
                else []
            | none => [])) from by simp [interruptAssistantPlayback, hA]] at hmem'
      simp only [List.mem_append] at hmem'
      rcases hmem' with (hc | hc) | hc
      · rcases hsid : st.twilioStreamSid with _ | sid <;>
          simp [hsid] at hc
      · rcases hcond : (st.assistantOutputActive &&
            (optTruthy st.activeResponseId ||
              (st.assistantOutputActive &&
                decide (0 < st.activeAssistantAudioMsSent)))) <;>
          simp [hcond] at hc
      · rcases hitem : st.activeAssistantItemId with _ | itemId0
        · simp [hitem] at hc
        · simp only [hitem] at hc
          split at hc
          next hcond =>
            simp only [List.mem_singleton, BridgeOutMsg.itemTruncate.injEq] at hc
            obtain ⟨-, -, hms⟩ := hc
            have hpos : (0 : ℚ) < st.activeAssistantAudioMsSent := by
              have h2 := hcond.2
              simp only [Bool.and_eq_true, decide_eq_true_eq] at h2
              exact h2.2.2
            constructor
            · rw [hms]
              exact le_max_left _ _
            · intro t0 ht0
              have hest : estimatePlayedAssistantAudioMs st now₁ =
                  min st.activeAssistantAudioMsSent
                    (max 0 ((now₁ : ℚ) - (t0 : ℚ))) := by
                simp [estimatePlayedAssistantAudioMs, ht0]
              have hnn : (0 : ℚ) ≤ estimatePlayedAssistantAudioMs st now₁ := by
                rw [hest]
                exact le_min hpos.le (le_max_left _ _)
              have hfloor : (0 : ℤ) ≤
                  Rat.floor (estimatePlayedAssistantAudioMs st now₁) :=
                Rat.le_floor.2 (by exact_mod_cast hnn)
              rw [hms, max_eq_right hfloor, hest]
          next => exact absurd hc (by simp)
  · have hnoop := interrupt_of_inactive st now₁ (by simpa using hA)
    refine ⟨?_, ?_, ?_⟩
    · rw [hnoop]
      exact interrupt_of_inactive st now₂ (by simpa using hA)
    · intro hne
      exact absurd (by rw [hnoop]) hne
    · intro itemId ci ms hmem
      rw [hnoop] at hmem
      exact absurd hmem (by simp)

/-- Witness for C9: at a concrete interrupted state (160 ms dispatched, 100 ms
of wall clock elapsed), the truncate message carries
`audio_end_ms = ⌊min 160 100⌋ = 100 ≥ 0`. -/
theorem interruptAssistantPlayback_dedup_witness :
    BridgeOutMsg.itemTruncate "item_1" 0 100 ∈
      (interruptAssistantPlayback sampleBridgeState 1100).2 ∧
    ((0 : ℤ) ≤ 100 ∧
      ∀ t0 : Nat, sampleBridgeState.activeAssistantAudioStartedAtMs = some t0 →
        (100 : ℤ) = Rat.floor (min sampleBridgeState.activeAssistantAudioMsSent
          (max 0 ((1100 : ℚ) - (t0 : ℚ))))) := by
  have hest : estimatePlayedAssistantAudioMs sampleBridgeState 1100 = 100 := by
    simp [estimatePlayedAssistantAudioMs, sampleBridgeState]
    norm_num
  have hfloor : Rat.floor (100 : ℚ) = 100 := by
    rw [Rat.floor_def']
    rfl
  have hmsgs : (interruptAssistantPlayback sampleBridgeState 1100).2 =
      [BridgeOutMsg.twilioClear "MZ1", .responseCancel,
       .itemTruncate "item_1" 0 100] := by
    simp only [interruptAssistantPlayback]
    rw [hest, hfloor]
    simp [sampleBridgeState, optTruthy, clearAssistantPlaybackTracking]
  have hmem : BridgeOutMsg.itemTruncate "item_1" 0 100 ∈
      (interruptAssistantPlayback sampleBridgeState 1100).2 := by
    rw [hmsgs]
    simp
  exact ⟨hmem,
    (interruptAssistantPlayback_dedup sampleBridgeState 1100 0).2.2 "item_1" 0 100
      hmem⟩

theorem b64Val_char : ∀ n, n < 64 → b64Val? (b64Char n) = some n := by decide

theorem b64Char_ne_dot : ∀ n, n < 64 → b64Char n ≠ '.' := by decide

theorem b64_decode_encode :
    ∀ bs : List Nat, (∀ b ∈ bs, b < 256) → b64decode? (b64encode bs) = some bs
  | [] => fun _ => rfl
  | [b1] => fun h => by
      have hb1 : b1 < 256 := h b1 (by simp)
      simp only [b64encode, b64decode?]
      rw [b64Val_char _ (by omega), b64Val_char _ (by omega)]
      simp only
      congr 2
      omega
  | [b1, b2] => fun h => by
      have hb1 : b1 < 256 := h b1 (by simp)
      have hb2 : b2 < 256 := h b2 (by simp)
      simp only [b64encode, b64decode?]
      rw [b64Val_char _ (by omega), b64Val_char _ (by omega),
        b64Val_char _ (by omega)]
      simp only
      congr 2
      · omega
      · congr 1
        omega
  | b1 :: b2 :: b3 :: t => fun h => by
      have hb1 : b1 < 256 := h b1 (by simp)
      have hb2 : b2 < 256 := h b2 (by simp)
      have hb3 : b3 < 256 := h b3 (by simp)
      have ih := b64_decode_encode t (fun b hb => h b (by simp [hb]))
      simp only [b64encode, b64decode?]
      rw [b64Val_char _ (by omega), b64Val_char _ (by omega),
        b64Val_char _ (by omega), b64Val_char _ (by omega), ih]
      simp only
      congr 2
      · omega
      · congr 1
        · omega
        · congr 1
          omega

theorem b64encode_ne_nil :
    ∀ bs : List Nat, bs ≠ [] → b64encode bs ≠ [] := by
  intro bs hbs
  match bs with
  | [] => exact absurd rfl hbs
  | [b1] => simp [b64encode]
  | [b1, b2] => simp [b64encode]
  | b1 :: b2 :: b3 :: t => simp [b64encode]

theorem b64encode_dotfree :
    ∀ bs : List Nat, (∀ b ∈ bs, b < 256) → '.' ∉ b64encode bs
  | [] => fun _ => by simp [b64encode]
  | [b1] => fun h => by
      have hb1 : b1 < 256 := h b1 (by simp)
      simp only [b64encode, List.mem_cons, List.not_mem_nil, or_false]
      push_neg
      exact ⟨fun he => b64Char_ne_dot _ (by omega) he.symm,
        fun he => b64Char_ne_dot _ (by omega) he.symm⟩
  | [b1, b2] => fun h => by
      have hb1 : b1 < 256 := h b1 (by simp)
      have hb2 : b2 < 256 := h b2 (by simp)
      simp only [b64encode, List.mem_cons, List.not_mem_nil, or_false]
      push_neg
      exact ⟨fun he => b64Char_ne_dot _ (by omega) he.symm,
        fun he => b64Char_ne_dot _ (by omega) he.symm,
        fun he => b64Char_ne_dot _ (by omega) he.symm⟩
  | b1 :: b2 :: b3 :: t => fun h => by
      have hb1 : b1 < 256 := h b1 (by simp)
      have hb2 : b2 < 256 := h b2 (by simp)
      have hb3 : b3 < 256 := h b3 (by simp)
      have ih := b64encode_dotfree t (fun b hb => h b (by simp [hb]))
      simp only [b64encode, List.mem_cons, not_or]
      refine ⟨fun he => b64Char_ne_dot _ (by omega) he.symm,
        fun he => b64Char_ne_dot _ (by omega) he.symm,
        fun he => b64Char_ne_dot _ (by omega) he.symm,
        fun he => b64Char_ne_dot _ (by omega) he.symm, ih⟩

theorem b64_decode_encode_take :
    ∀ (bs : List Nat) (k : Nat), (∀ b ∈ bs, b < 256) →
      k < (b64encode bs).length →
      b64decode? ((b64encode bs).take k) = none ∨
      ∃ m, m < bs.length ∧
        b64decode? ((b64encode bs).take k) = some (bs.take m)
  | [], k => fun _ hk => by simp [b64encode] at hk
  | [b1], k => fun h hk => by
      have hb1 : b1 < 256 := h b1 (by simp)
      have hk2 : k < 2 := by simpa [b64encode] using hk
      rcases k with _ | _ | k
      · exact Or.inr ⟨0, by simp, by simp [b64decode?]⟩
      · exact Or.inl (by simp [b64encode, b64decode?])
      · omega
  | [b1, b2], k => fun h hk => by
      have hb1 : b1 < 256 := h b1 (by simp)
      have hb2 : b2 < 256 := h b2 (by simp)
      have hk3 : k < 3 := by simpa [b64encode] using hk
      rcases k with _ | _ | _ | k
      · exact Or.inr ⟨0, by simp, by simp [b64decode?]⟩
      · exact Or.inl (by simp [b64encode, b64decode?])
      · refine Or.inr ⟨1, by simp, ?_⟩
        simp only [b64encode, List.take]
        simp only [b64decode?]
        rw [b64Val_char _ (by omega), b64Val_char _ (by omega)]
        simp only [List.take]
        congr 2
        omega
      · omega
  | b1 :: b2 :: b3 :: t, k => fun h hk => by
      have hb1 : b1 < 256 := h b1 (by simp)
      have hb2 : b2 < 256 := h b2 (by simp)
      have hb3 : b3 < 256 := h b3 (by simp)
      rcases k with _ | _ | _ | _ | k
      · exact Or.inr ⟨0, by simp, by simp [b64decode?]⟩
      · exact Or.inl (by simp [b64encode, b64decode?])
      · refine Or.inr ⟨1, by simp, ?_⟩
        simp only [b64encode, List.take]
        simp only [b64decode?]
        rw [b64Val_char _ (by omega), b64Val_char _ (by omega)]
        simp only [List.take]
        congr 2
        omega
      · refine Or.inr ⟨2, by simp, ?_⟩
        simp only [b64encode, List.take]
        simp only [b64decode?]
        rw [b64Val_char _ (by omega), b64Val_char _ (by omega),
          b64Val_char _ (by omega)]
        simp only [List.take]
        congr 2
        · omega
        · congr 1
          omega
      · have hk4 : k < (b64encode t).length := by
          simpa [b64encode] using hk
        have ih := b64_decode_encode_take t k
          (fun b hb => h b (by simp [hb])) hk4
        have htake : (b64encode (b1 :: b2 :: b3 :: t)).take (k + 4) =
            b64Char (b1 / 4) :: b64Char (b1 % 4 * 16 + b2 / 16) ::
              b64Char (b2 % 16 * 4 + b3 / 64) :: b64Char (b3 % 64) ::
              (b64encode t).take k := by
          simp [b64encode]
        rw [htake]
        rcases ih with hnone | ⟨m, hm, hsome⟩
        · refine Or.inl ?_
          simp only [b64decode?]
          rw [b64Val_char _ (by omega), b64Val_char _ (by omega),
            b64Val_char _ (by omega), b64Val_char _ (by omega), hnone]
        · refine Or.inr ⟨m + 3, by simp; omega, ?_⟩
          simp only [b64decode?]
          rw [b64Val_char _ (by omega), b64Val_char _ (by omega),
            b64Val_char _ (by omega), b64Val_char _ (by omega), hsome]
          simp only [List.take]
          congr 2
          · omega
          · congr 1
            · omega
            · congr 1
              omega

theorem stripPre_append (p r : List Nat) : stripPre? p (p ++ r) = some r := by
  induction p with
  | nil => rfl
  | cons x xs ih => simp [stripPre?, ih]

theorem stripPre_some :
    ∀ (p l r : List Nat), stripPre? p l = some r → l = p ++ r
  | [], l, r => fun h => by
      simp [stripPre?] at h
      simp [h]
  | x :: xs, [], r => fun h => by simp [stripPre?] at h
  | x :: xs, y :: ys, r => fun h => by
      by_cases hxy : y = x
      · subst hxy
        simp only [stripPre?, if_pos rfl] at h
        simp [stripPre_some xs ys r h]
      · simp [stripPre?, hxy] at h

theorem takeWhile_middle (a : List Nat) (y : Nat) (ys : List Nat)
    (p : Nat → Bool) (ha : ∀ x ∈ a, p x = true) (hy : p y = false) :
    (a ++ y :: ys).takeWhile p = a ∧ (a ++ y :: ys).dropWhile p = y :: ys := by
  induction a with
  | nil => simp [List.takeWhile, List.dropWhile, hy]
  | cons x xs ih =>
      have hx : p x = true := ha x (by simp)
      have ih2 := ih (fun z hz => ha z (by simp [hz]))
      simp [List.takeWhile, List.dropWhile, hx, ih2.1, ih2.2]

theorem decDigits_range (n : Nat) : ∀ d ∈ decDigits n, 48 ≤ d ∧ d ≤ 57 := by
  intro d hd
  unfold decDigits at hd
  by_cases hn : n = 0
  · simp [hn] at hd
    omega
  · simp only [hn, if_false, List.mem_map, List.mem_reverse] at hd
    obtain ⟨d0, hd0, rfl⟩ := hd
    have := Nat.digits_lt_base (by norm_num) hd0
    omega

theorem decDigits_ne_nil (n : Nat) : decDigits n ≠ [] := by
  unfold decDigits
  by_cases hn : n = 0
  · simp [hn]
  · simp only [hn, if_false]
    intro h
    have h2 : (Nat.digits 10 n) ≠ [] := Nat.digits_ne_nil_iff_ne_zero.mpr hn
    simp at h
    exact h2 h

theorem natFromDigits_aux (L : List Nat) :
    ∀ acc : Nat, (L.map (fun d => d + 48)).foldl
      (fun acc d => acc * 10 + (d - 48)) acc =
      acc * 10 ^ L.length + Nat.ofDigits 10 L.reverse := by
  induction L with
  | nil => intro acc; simp
  | cons d t ih =>
      intro acc
      simp only [List.map_cons, List.foldl_cons, List.reverse_cons,
        List.length_cons]
      rw [ih (acc * 10 + (d + 48 - 48))]
      rw [Nat.ofDigits_append]
      simp [Nat.ofDigits]
      ring

theorem natFromDigits_decDigits (n : Nat) :
    natFromDigits (decDigits n) = n := by
  unfold natFromDigits decDigits
  by_cases hn : n = 0
  · simp [hn]
  · simp only [hn, if_false]
    rw [natFromDigits_aux ((Nat.digits 10 n).reverse) 0]
    simp [Nat.ofDigits_digits]

theorem bytesToStr_strBytes (s : String) : bytesToStr (strBytes s) = s := by
  unfold bytesToStr strBytes
  rw [List.map_map]
  have : (Char.ofNat ∘ Char.toNat) = id := by
    funext c
    exact Char.ofNat_toNat c
  rw [this, List.map_id]

theorem parsePayload_roundtrip (sessionId : String) (exp : Nat)
    (hsid : SidSafe sessionId) :
    parsePayload? (jsonPayloadBytes sessionId exp) = some (sessionId, exp) := by
  have hmid : strBytes "\",\"exp\":" =
      34 :: ([44, 34, 101, 120, 112, 34, 58] : List Nat) := by decide
  unfold parsePayload? jsonPayloadBytes
  rw [show strBytes "\x7b\"sessionId\":\"" ++ strBytes sessionId ++
      strBytes "\",\"exp\":" ++ decDigits exp ++ [125] =
      strBytes "\x7b\"sessionId\":\"" ++ (strBytes sessionId ++
        34 :: (([44, 34, 101, 120, 112, 34, 58] : List Nat) ++
          (decDigits exp ++ [125]))) from by rw [hmid]; simp]
  rw [stripPre_append]
  simp only
  have hsplit := takeWhile_middle (strBytes sessionId) 34
    (([44, 34, 101, 120, 112, 34, 58] : List Nat) ++ (decDigits exp ++ [125]))
    (fun b => decide (b ≠ 34))
    (fun x hx => by
      obtain ⟨c, hc, rfl⟩ := List.mem_map.mp hx
      have := (hsid c hc).2.2.1
      simp [this])
    (by simp)
  rw [hsplit.1, hsplit.2]
  rw [show (34 : Nat) :: (([44, 34, 101, 120, 112, 34, 58] : List Nat) ++
      (decDigits exp ++ [125])) =
      strBytes "\",\"exp\":" ++ (decDigits exp ++ [125]) from by
    rw [hmid]; simp]
  rw [stripPre_append]
  simp only
  have hdig := takeWhile_middle (decDigits exp) 125 [] isDigitByte
    (fun x hx => by
      have := decDigits_range exp x hx
      simp only [isDigitByte, Bool.and_eq_true, decide_eq_true_eq]
      omega)
    (by simp [isDigitByte])
  rw [show decDigits exp ++ [125] = decDigits exp ++ 125 :: ([] : List Nat)
    from rfl]
  rw [hdig.1, hdig.2]
  simp [decDigits_ne_nil, bytesToStr_strBytes, natFromDigits_decDigits]

theorem parsePayload_some_structure (bs : List Nat) (x : String × Nat)
    (h : parsePayload? bs = some x) :
    ∃ body, bs = body ++ [125] := by
  unfold parsePayload? at h
  cases h1 : stripPre? (strBytes "\x7b\"sessionId\":\"") bs with
  | none => rw [h1] at h; exact absurd h (by simp)
  | some r1 =>
      rw [h1] at h
      simp only at h
      cases h2 : stripPre? (strBytes "\",\"exp\":")
          (r1.dropWhile (fun b => b ≠ 34)) with
      | none => rw [h2] at h; exact absurd h (by simp)
      | some r3 =>
          rw [h2] at h
          simp only at h
          by_cases h3 : r3.takeWhile isDigitByte = []
          · rw [if_pos h3] at h
            exact absurd h (by simp)
          · rw [if_neg h3] at h
            by_cases h4 : r3.dropWhile isDigitByte = [125]
            · have hbs : bs = strBytes "\x7b\"sessionId\":\"" ++ r1 :=
                stripPre_some _ _ _ h1
              have hr1 : r1 = r1.takeWhile (fun b => b ≠ 34) ++
                  r1.dropWhile (fun b => b ≠ 34) :=
                (List.takeWhile_append_dropWhile _ _).symm
              have hr2 : r1.dropWhile (fun b => b ≠ 34) =
                  strBytes "\",\"exp\":" ++ r3 := stripPre_some _ _ _ h2
              have hr3 : r3 = r3.takeWhile isDigitByte ++
                  r3.dropWhile isDigitByte :=
                (List.takeWhile_append_dropWhile _ _).symm
              refine ⟨strBytes "\x7b\"sessionId\":\"" ++
                (r1.takeWhile (fun b => b ≠ 34) ++
                  (strBytes "\",\"exp\":" ++ r3.takeWhile isDigitByte)), ?_⟩
              rw [hbs]
              conv_lhs => rw [hr1, hr2]
              conv_lhs => rw [hr3]
              rw [h4]
              simp
            · rw [if_neg h4] at h
              exact absurd h (by simp)

theorem json_body_no125 (sessionId : String) (exp : Nat)
    (hsid : SidSafe sessionId) :
    (125 : Nat) ∉ (strBytes "\x7b\"sessionId\":\"" ++ strBytes sessionId ++
      strBytes "\",\"exp\":" ++ decDigits exp) := by
  simp only [List.mem_append, not_or]
  refine ⟨⟨⟨by decide, ?_⟩, by decide⟩, ?_⟩
  · intro h
    obtain ⟨c, hc, hcn⟩ := List.mem_map.mp h
    have := (hsid c hc).2.2.2.2
    exact this hcn
  · intro h
    have := decDigits_range exp _ h
    omega

theorem parsePayload_take_none (sessionId : String) (exp : Nat)
    (hsid : SidSafe sessionId) :
    ∀ m, m < (jsonPayloadBytes sessionId exp).length →
      parsePayload? ((jsonPayloadBytes sessionId exp).take m) = none := by
  intro m hm
  cases hp : parsePayload? ((jsonPayloadBytes sessionId exp).take m) with
  | none => rfl
  | some x =>
      exfalso
      obtain ⟨body2, hbody2⟩ := parsePayload_some_structure _ x hp
      have hjson : jsonPayloadBytes sessionId exp =
          (strBytes "\x7b\"sessionId\":\"" ++ strBytes sessionId ++
            strBytes "\",\"exp\":" ++ decDigits exp) ++ [125] := by
        unfold jsonPayloadBytes
        simp [List.append_assoc]
      have hmlen : m ≤ (strBytes "\x7b\"sessionId\":\"" ++
          strBytes sessionId ++ strBytes "\",\"exp\":" ++
          decDigits exp).length := by
        rw [hjson] at hm
        simp only [List.length_append, List.length_singleton] at hm
        simp only [List.length_append]
        omega
      have htake : (jsonPayloadBytes sessionId exp).take m =
          (strBytes "\x7b\"sessionId\":\"" ++ strBytes sessionId ++
            strBytes "\",\"exp\":" ++ decDigits exp).take m := by
        rw [hjson, List.take_append_eq_append_take]
        rw [Nat.sub_eq_zero_of_le hmlen]
        simp
      have h125 : (125 : Nat) ∈ (jsonPayloadBytes sessionId exp).take m := by
        rw [hbody2]
        simp
      rw [htake] at h125
      exact json_body_no125 sessionId exp hsid
        ((List.take_sublist _ _).mem h125)

theorem splitOnDot_dotfree : ∀ l : List Char, '.' ∉ l → splitOnDot l = [l] := by
  intro l
  induction l with
  | nil => intro _; rfl
  | cons c t ih =>
      intro h
      have hc : ¬ (c = '.') := fun he => h (by simp [he])
      have ht : '.' ∉ t := fun he => h (by simp [he])
      simp [splitOnDot, hc, ih ht]

theorem splitOnDot_breaks (p s : List Char) (hp : '.' ∉ p) :
    splitOnDot (p ++ '.' :: s) = p :: splitOnDot s := by
  induction p with
  | nil => simp [splitOnDot]
  | cons c t ih =>
      have hc : ¬ (c = '.') := fun he => hp (by simp [he])
      have ht : '.' ∉ t := fun he => hp (by simp [he])
      simp only [List.cons_append, splitOnDot, hc, if_false, List.append_eq]
      rw [ih ht]

theorem createViewerToken_data (mac : String → String) (sessionId : String)
    (ttlSeconds nowMs : Nat) :
    (createViewerToken mac sessionId ttlSeconds nowMs).data =
      b64encode (jsonPayloadBytes sessionId (nowMs / 1000 + ttlSeconds)) ++
        '.' :: (mac (String.mk (b64encode (jsonPayloadBytes sessionId
          (nowMs / 1000 + ttlSeconds))))).data := by
  unfold createViewerToken
  simp [String.data_append]

theorem string_ext (a b : String) (h : a.data = b.data) : a = b := by
  cases a
  cases b
  simp only at h
  rw [h]

theorem jsonPayloadBytes_ne_nil (sessionId : String) (exp : Nat) :
    jsonPayloadBytes sessionId exp ≠ [] := by
  unfold jsonPayloadBytes
  simp

theorem jsonPayloadBytes_lt (sessionId : String) (exp : Nat)
    (hsid : SidSafe sessionId) :
    ∀ b ∈ jsonPayloadBytes sessionId exp, b < 256 := by
  intro b hb
  unfold jsonPayloadBytes at hb
  simp only [List.mem_append, List.mem_cons, List.not_mem_nil, or_false] at hb
  rcases hb with (((h | h) | h) | h) | rfl
  · exact (by decide : ∀ x ∈ strBytes "\x7b\"sessionId\":\"", x < 256) b h
  · obtain ⟨c, hc, rfl⟩ := List.mem_map.mp h
    have := (hsid c hc).2.1
    omega
  · exact (by decide : ∀ x ∈ strBytes "\",\"exp\":", x < 256) b h
  · have := decDigits_range exp b h
    omega
  · omega

theorem set_ne_of_get_ne (l : List Char) (i : Nat) (c : Char) (h : i < l.length)
    (hcne : c ≠ l.get ⟨i, h⟩) : l.set i c ≠ l := by
  intro hEq
  apply hcne
  have h4 : (l.set i c)[i]? = some c := by simp [List.getElem?_set_self, h]
  rw [hEq] at h4
  rw [List.getElem?_eq_getElem h] at h4
  exact (Option.some.inj h4).symm

theorem verify_eval (mac : String → String) (sessionId t : String)
    (A B : List Char) (rest : List (List Char)) (nowMs : Nat)
    (hsplit : splitOnDot t.data = A :: B :: rest) :
    verifyViewerToken mac sessionId t nowMs =
      (if A = [] ∨ B = [] then false
       else if (mac (String.mk A)).data ≠ B then false
       else
         match b64decode? A with
         | none => false
         | some payloadBytes =>
             match parsePayload? payloadBytes with
             | none => false
             | some (sid, exp) =>
                 decide (sid = sessionId) && decide (nowMs / 1000 < exp)) := by
  unfold verifyViewerToken
  rw [hsplit]

theorem verify_nodot (mac : String → String) (sessionId t : String)
    (nowMs : Nat) (h : '.' ∉ t.data) :
    verifyViewerToken mac sessionId t nowMs = false := by
  unfold verifyViewerToken
  rw [splitOnDot_dotfree _ h]

theorem createViewerToken_eq (mac : String → String) (sessionId : String)
    (ttlSeconds nowMs : Nat) :
    createViewerToken mac sessionId ttlSeconds nowMs =
      String.mk (b64encode (jsonPayloadBytes sessionId
          (nowMs / 1000 + ttlSeconds)) ++ '.' ::
        (mac (String.mk (b64encode (jsonPayloadBytes sessionId
          (nowMs / 1000 + ttlSeconds))))).data) :=
  string_ext _ _ (createViewerToken_data mac sessionId ttlSeconds nowMs)

theorem verify_wellformed (mac : String → String)
    (hdot : ∀ p : String, '.' ∉ p.data → '.' ∉ (mac p).data)
    (hne : ∀ p : String, p ≠ "" → mac p ≠ "")
    (checkId sid0 : String) (hsid : SidSafe sid0) (exp checkMs : Nat) :
    verifyViewerToken mac checkId
      (String.mk (b64encode (jsonPayloadBytes sid0 exp) ++ '.' ::
        (mac (String.mk (b64encode (jsonPayloadBytes sid0 exp)))).data))
      checkMs =
      (decide (sid0 = checkId) && decide (checkMs / 1000 < exp)) := by
  have hblt : ∀ b ∈ jsonPayloadBytes sid0 exp, b < 256 :=
    jsonPayloadBytes_lt sid0 exp hsid
  have hPdot : '.' ∉ b64encode (jsonPayloadBytes sid0 exp) :=
    b64encode_dotfree _ hblt
  have hPne : b64encode (jsonPayloadBytes sid0 exp) ≠ [] :=
    b64encode_ne_nil _ (jsonPayloadBytes_ne_nil sid0 exp)
  have hencne : String.mk (b64encode (jsonPayloadBytes sid0 exp)) ≠ "" :=
    fun h => hPne (congrArg String.data h)
  have hSdot :
      '.' ∉ (mac (String.mk (b64encode (jsonPayloadBytes sid0 exp)))).data :=
    hdot _ hPdot
  have hSne :
      (mac (String.mk (b64encode (jsonPayloadBytes sid0 exp)))).data ≠ [] := by
    intro h
    apply hne _ hencne
    rw [show ("" : String) = String.mk [] from rfl, ← h]
  have hsplit : splitOnDot (String.mk (b64encode (jsonPayloadBytes sid0 exp) ++
      '.' :: (mac (String.mk (b64encode
        (jsonPayloadBytes sid0 exp)))).data)).data =
      b64encode (jsonPayloadBytes sid0 exp) ::
        (mac (String.mk (b64encode (jsonPayloadBytes sid0 exp)))).data :: [] := by
    show splitOnDot (b64encode (jsonPayloadBytes sid0 exp) ++ '.' ::
      (mac (String.mk (b64encode (jsonPayloadBytes sid0 exp)))).data) = _
    rw [splitOnDot_breaks _ _ hPdot, splitOnDot_dotfree _ hSdot]
  rw [verify_eval mac checkId _ _ _ [] checkMs hsplit]
  rw [if_neg (by simp [hPne, hSne])]
  rw [if_neg (by intro hh; exact hh rfl)]
  simp only [b64_decode_encode _ hblt, parsePayload_roundtrip sid0 exp hsid]

theorem verify_set_false (mac : String → String)
    (hinj : Function.Injective mac)
    (hdot : ∀ p : String, '.' ∉ p.data → '.' ∉ (mac p).data)
    (hne : ∀ p : String, p ≠ "" → mac p ≠ "")
    (checkId sid0 : String) (hsid : SidSafe sid0) (exp : Nat)
    (P S : List Char)
    (hP : P = b64encode (jsonPayloadBytes sid0 exp))
    (hS : S = (mac (String.mk P)).data)
    (i : Nat) (c : Char) (hi : i < (P ++ '.' :: S).length)
    (hc : c ≠ (P ++ '.' :: S).get ⟨i, hi⟩) (nowMs : Nat) :
    verifyViewerToken mac checkId
      (String.mk ((P ++ '.' :: S).set i c)) nowMs = false := by
  have hblt : ∀ b ∈ jsonPayloadBytes sid0 exp, b < 256 :=
    jsonPayloadBytes_lt sid0 exp hsid
  have hPdot : '.' ∉ P := by rw [hP]; exact b64encode_dotfree _ hblt
  have hPne : P ≠ [] := by
    rw [hP]; exact b64encode_ne_nil _ (jsonPayloadBytes_ne_nil sid0 exp)
  have hencne : String.mk P ≠ "" := fun h => hPne (congrArg String.data h)
  have hSdot : '.' ∉ S := by rw [hS]; exact hdot _ hPdot
  have hSne : S ≠ [] := by
    rw [hS]
    intro h
    apply hne _ hencne
    rw [show ("" : String) = String.mk [] from rfl, ← h]
  rcases Nat.lt_trichotomy i P.length with hlt | heq | hgt
  · -- the mutated byte lands inside the encoded payload
    have hget : (P ++ '.' :: S).get ⟨i, hi⟩ = P.get ⟨i, hlt⟩ := by
      simp [List.getElem_append_left hlt]
    have hc2 : c ≠ P.get ⟨i, hlt⟩ := fun h => hc (h.trans hget.symm)
    rw [show (P ++ '.' :: S).set i c = P.set i c ++ '.' :: S from
      List.set_append_left _ _ hlt]
    by_cases hcd : c = '.'
    · subst hcd
      rw [show P.set i '.' = P.take i ++ '.' :: P.drop (i + 1) from by
        rw [List.set_eq_take_append_cons_drop, if_pos hlt]]
      have htd : '.' ∉ P.take i := fun hm => hPdot (List.take_subset _ _ hm)
      have hdd : '.' ∉ P.drop (i + 1) :=
        fun hm => hPdot (List.drop_subset _ _ hm)
      have hsplit : splitOnDot (String.mk ((P.take i ++ '.' ::
          P.drop (i + 1)) ++ '.' :: S)).data =
          P.take i :: P.drop (i + 1) :: [S] := by
        show splitOnDot ((P.take i ++ '.' :: P.drop (i + 1)) ++ '.' :: S) = _
        rw [show (P.take i ++ '.' :: P.drop (i + 1)) ++ '.' :: S =
          P.take i ++ '.' :: (P.drop (i + 1) ++ '.' :: S) from by simp]
        rw [splitOnDot_breaks _ _ htd, splitOnDot_breaks _ _ hdd,
          splitOnDot_dotfree _ hSdot]
      rw [verify_eval mac checkId _ _ _ _ nowMs hsplit]
      by_cases hA : P.take i = [] ∨ P.drop (i + 1) = []
      · rw [if_pos hA]
      · rw [if_neg hA]
        by_cases hsig : (mac (String.mk (P.take i))).data ≠ P.drop (i + 1)
        · rw [if_pos hsig]
        · rw [if_neg hsig]
          have hilt : i < (b64encode (jsonPayloadBytes sid0 exp)).length := by
            rw [← hP]; exact hlt
          have hPt : P.take i =
              (b64encode (jsonPayloadBytes sid0 exp)).take i := by rw [hP]
          rcases b64_decode_encode_take (jsonPayloadBytes sid0 exp) i hblt hilt
            with hnone | ⟨m, hm, hsome⟩
          · simp only [hPt, hnone]
          · simp only [hPt, hsome,
              parsePayload_take_none sid0 exp hsid m hm]
    · -- a non-dot replacement inside the payload breaks the signature
      have hlen : P.set i c ≠ [] := fun h =>
        hPne (List.eq_nil_of_length_eq_zero (by
          have := congrArg List.length h
          simpa using this))
      have hP2dot : '.' ∉ P.set i c := by
        intro hm
        rcases List.mem_or_eq_of_mem_set hm with hm2 | hm2
        · exact hPdot hm2
        · exact hcd hm2.symm
      have hsplit : splitOnDot (String.mk (P.set i c ++ '.' :: S)).data =
          P.set i c :: [S] := by
        show splitOnDot (P.set i c ++ '.' :: S) = _
        rw [splitOnDot_breaks _ _ hP2dot, splitOnDot_dotfree _ hSdot]
      rw [verify_eval mac checkId _ _ _ _ nowMs hsplit]
      rw [if_neg (by simp [hlen, hSne])]
      have hsig : (mac (String.mk (P.set i c))).data ≠ S := by
        intro hEq
        have h1 : mac (String.mk (P.set i c)) = mac (String.mk P) :=
          string_ext _ _ (by rw [hEq]; exact hS)
        have h2 : String.mk (P.set i c) = String.mk P := hinj h1
        have h3 : P.set i c = P := congrArg String.data h2
        exact set_ne_of_get_ne P i c hlt hc2 h3
      rw [if_pos hsig]
  · -- the mutated byte is the separating dot itself
    subst heq
    have hget : (P ++ '.' :: S).get ⟨P.length, hi⟩ = '.' := by
      simp [List.getElem_append_right (le_refl P.length)]
    have hcd : c ≠ '.' := fun h => hc (h.trans hget.symm)
    rw [show (P ++ '.' :: S).set P.length c = P ++ c :: S from by
      rw [List.set_append_right _ _ (le_refl P.length), Nat.sub_self]
      rfl]
    have hall : '.' ∉ P ++ c :: S := by
      simp only [List.mem_append, List.mem_cons, not_or]
      exact ⟨hPdot, fun h => hcd h.symm, hSdot⟩
    exact verify_nodot mac checkId _ nowMs hall
  · -- the mutated byte lands inside the signature
    obtain ⟨j, rfl⟩ : ∃ j, i = P.length + (j + 1) :=
      ⟨i - P.length - 1, by omega⟩
    have hj : j < S.length := by
      simp only [List.length_append, List.length_cons] at hi
      omega
    have hgetS : (P ++ '.' :: S).get ⟨P.length + (j + 1), hi⟩ =
        S.get ⟨j, hj⟩ := by
      simp [List.getElem_append_right
        (by omega : P.length ≤ P.length + (j + 1)), Nat.add_sub_cancel_left]
    have hc2 : c ≠ S.get ⟨j, hj⟩ := fun h => hc (h.trans hgetS.symm)
    rw [show (P ++ '.' :: S).set (P.length + (j + 1)) c =
        P ++ '.' :: S.set j c from by
      rw [List.set_append_right _ _ (by omega)]
      rw [show P.length + (j + 1) - P.length = j + 1 from by omega]
      rfl]
    by_cases hcd : c = '.'
    · subst hcd
      rw [show S.set j '.' = S.take j ++ '.' :: S.drop (j + 1) from by
        rw [List.set_eq_take_append_cons_drop, if_pos hj]]
      have htd : '.' ∉ S.take j := fun hm => hSdot (List.take_subset _ _ hm)
      have hdd : '.' ∉ S.drop (j + 1) :=
        fun hm => hSdot (List.drop_subset _ _ hm)
      have hsplit : splitOnDot (String.mk (P ++ '.' :: (S.take j ++ '.' ::
          S.drop (j + 1)))).data =
          P :: S.take j :: [S.drop (j + 1)] := by
        show splitOnDot (P ++ '.' :: (S.take j ++ '.' :: S.drop (j + 1))) = _
        rw [splitOnDot_breaks _ _ hPdot, splitOnDot_breaks _ _ htd,
          splitOnDot_dotfree _ hdd]
      rw [verify_eval mac checkId _ _ _ _ nowMs hsplit]
      by_cases hB : S.take j = []
      · rw [if_pos (Or.inr hB)]
      · rw [if_neg (by simp [hPne, hB])]
        have hsig : (mac (String.mk P)).data ≠ S.take j := by
          rw [← hS]
          intro hEq
          have := congrArg List.length hEq
          rw [List.length_take] at this
          omega
        rw [if_pos hsig]
    · have hS2ne : S.set j c ≠ [] := fun h =>
        hSne (List.eq_nil_of_length_eq_zero (by
          have := congrArg List.length h
          simpa using this))
      have hS2dot : '.' ∉ S.set j c := by
        intro hm
        rcases List.mem_or_eq_of_mem_set hm with hm2 | hm2
        · exact hSdot hm2
        · exact hcd hm2.symm
      have hsplit : splitOnDot (String.mk (P ++ '.' :: S.set j c)).data =
          P :: [S.set j c] := by
        show splitOnDot (P ++ '.' :: S.set j c) = _
        rw [splitOnDot_breaks _ _ hPdot, splitOnDot_dotfree _ hS2dot]
      rw [verify_eval mac checkId _ _ _ _ nowMs hsplit]
      rw [if_neg (by simp [hPne, hS2ne])]
      have hsig : (mac (String.mk P)).data ≠ S.set j c := by
        rw [← hS]
        intro hEq
        exact set_ne_of_get_ne S j c hj hc2 hEq.symm
      rw [if_pos hsig]

/-- C5: viewer-token round trip.  With the HMAC-SHA256 signer abstracted as an
injective `mac` that preserves dot-freeness and nonemptiness, a token freshly
minted by `createViewerToken` verifies true for its session id before expiry;
verification returns false for a different session id, after expiry, after
mutating any single character of the token, and for any token without a dot
(which cannot parse). -/
theorem viewer_token_roundtrip (mac : String → String)
    (hinj : Function.Injective mac)
    (hdot : ∀ p : String, '.' ∉ p.data → '.' ∉ (mac p).data)
    (hne : ∀ p : String, p ≠ "" → mac p ≠ "")
    (sessionId : String) (hsid : SidSafe sessionId)
    (ttlSeconds nowMs : Nat) (httl : 0 < ttlSeconds) :
    (∀ checkMs : Nat, checkMs / 1000 < nowMs / 1000 + ttlSeconds →
      verifyViewerToken mac sessionId
        (createViewerToken mac sessionId ttlSeconds nowMs) checkMs = true) ∧
    (∀ other : String, other ≠ sessionId →
      verifyViewerToken mac other
        (createViewerToken mac sessionId ttlSeconds nowMs) nowMs = false) ∧
    (∀ checkMs : Nat, nowMs / 1000 + ttlSeconds ≤ checkMs / 1000 →
      verifyViewerToken mac sessionId
        (createViewerToken mac sessionId ttlSeconds nowMs) checkMs = false) ∧
    (∀ (i : Nat)
      (hi : i < (createViewerToken mac sessionId ttlSeconds nowMs).data.length)
      (c : Char),
      c ≠ (createViewerToken mac sessionId ttlSeconds nowMs).data.get ⟨i, hi⟩ →
      verifyViewerToken mac sessionId
        (String.mk ((createViewerToken mac sessionId ttlSeconds
          nowMs).data.set i c)) nowMs = false) ∧
    (∀ t : String, '.' ∉ t.data →
      verifyViewerToken mac sessionId t nowMs = false) := by
  refine ⟨?_, ?_, ?_, ?_, ?_⟩
  · intro checkMs hcheck
    rw [createViewerToken_eq,
      verify_wellformed mac hdot hne sessionId sessionId hsid _ checkMs]
    simp [hcheck]
  · intro other hother
    rw [createViewerToken_eq,
      verify_wellformed mac hdot hne other sessionId hsid _ nowMs]
    simp [Ne.symm hother]
  · intro checkMs hcheck
    rw [createViewerToken_eq,
      verify_wellformed mac hdot hne sessionId sessionId hsid _ checkMs]
    simp [Nat.not_lt.mpr hcheck]
  · intro i
    have htd : (createViewerToken mac sessionId ttlSeconds nowMs).data =
        b64encode (jsonPayloadBytes sessionId (nowMs / 1000 + ttlSeconds)) ++
          '.' :: (mac (String.mk (b64encode (jsonPayloadBytes sessionId
            (nowMs / 1000 + ttlSeconds))))).data :=
      createViewerToken_data mac sessionId ttlSeconds nowMs
    rw [htd]
    intro hi c hc
    exact verify_set_false mac hinj hdot hne sessionId sessionId hsid
      (nowMs / 1000 + ttlSeconds) _ _ rfl rfl i c hi hc nowMs
  · intro t ht
    exact verify_nodot mac sessionId t nowMs ht

theorem viewer_token_roundtrip_witness :
    (0 : Nat) < 1 ∧
    verifyViewerToken id "call_ab"
      (createViewerToken id "call_ab" 1 0) 0 = true :=
  ⟨by decide,
    (viewer_token_roundtrip id (fun a b h => h) (fun p h => h) (fun p h => h)
      "call_ab" (by decide) 1 0 (by decide)).1 0 (by decide)⟩

end ClassPulse
